import Mathlib

/-!
Shallow embedding of `fastNLP/core/samplers/reproducible_batch_sampler.py`
(`BucketedBatchSampler` and `ReproducibleBatchSampler`), together with proofs
about the embedded operations.

Modelling conventions:
* Python lists of ints are `List Nat`; machine ints are unbounded in Python,
  so `Nat`/`Int` are exact.
* Fallible operations (`[][0]`, `[].pop(-1)`, division by zero) return
  `Except String`.
* `numpy`'s `np.random.default_rng(seed)` / `rng.shuffle` are an external
  collaborator, not code of this repository; they are abstracted as an
  `RngFamily`: an opaque seeded generator state together with a `shuf`
  operation that produces a permutation of its input (which is exactly the
  contract `Generator.shuffle` provides).  All theorems about shuffled paths
  quantify over the family; concrete evaluations use the trivial family
  `idRng`.
* `np.argsort` (default sort) is modelled as a stable ascending argsort:
  numpy sorts short arrays by insertion sort, which is stable; the source
  then reverses it (`[::-1]`).
-/

instance {ε α : Type} [DecidableEq ε] [DecidableEq α] : DecidableEq (Except ε α) := fun a b =>
  match a, b with
  | Except.error e1, Except.error e2 =>
    if h : e1 = e2 then Decidable.isTrue (by rw [h])
    else Decidable.isFalse (by intro hc; injection hc; contradiction)
  | Except.error _, Except.ok _ => Decidable.isFalse (fun hc => Except.noConfusion hc)
  | Except.ok _, Except.error _ => Decidable.isFalse (fun hc => Except.noConfusion hc)
  | Except.ok a1, Except.ok a2 =>
    if h : a1 = a2 then Decidable.isTrue (by rw [h])
    else Decidable.isFalse (by intro hc; injection hc; contradiction)

/-- Python slicing `l[r::step]` for `step ≥ 1`: drop the first `r` elements,
then take every `step`-th element. -/
def pySlice : List α → Nat → Nat → List α
  | [], _, _ => []
  | x :: xs, 0, step => x :: pySlice xs (step - 1) step
  | _ :: xs, r + 1, step => pySlice xs r step

/-- Split a list into `n` consecutive chunks of size `b` (the last may be
short).  Mirrors `np.array_split` in the evenly divisible case used by the
source, applied to the first `n*b` elements. -/
def chunksExact (b : Nat) : Nat → List α → List (List α)
  | 0, _ => []
  | n + 1, l => l.take b :: chunksExact b n (l.drop b)

/-- The chunking idiom of the source (used both in `bucketerize` and in the
`shuffle=False` branch of `__iter__`):
`_num_batches = len(l) // b; if _num_batches == 0: [l]
 else: np.array_split(l[:_num_batches*b], _num_batches) (+ remainder)`. -/
def pyChunk (l : List α) (b : Nat) : List (List α) :=
  let n := l.length / b
  if n = 0 then [l]
  else
    chunksExact b n (l.take (n * b)) ++
      (if l.length % b = 0 then [] else [l.drop (n * b)])

/-- Total number of indices across a list of batches. -/
def sumLen (bs : List (List Nat)) : Nat := (bs.map List.length).sum

/-- Stable insertion (ascending by `lengths[·]`, ties keep insertion order:
a newly inserted index goes after equal keys). -/
def insertAsc (lengths : List Nat) (i : Nat) : List Nat → List Nat
  | [] => [i]
  | j :: rest =>
    if lengths.getD i 0 < lengths.getD j 0 then i :: j :: rest
    else j :: insertAsc lengths i rest

/-- Stable ascending argsort of `lengths` (model of `np.argsort(lengths)`). -/
def argsortAsc (lengths : List Nat) : List Nat :=
  (List.range lengths.length).foldl (fun acc i => insertAsc lengths i acc) []

/-- `np.argsort(lengths)[::-1]`: indices sorted by length, longest first
(`self.sorted_indices` in `BucketedBatchSampler.__init__`; also the re-sort
`np.argsort(sub_length)[::-1]` in the mid-epoch resume branch). -/
def sortedIndicesOf (lengths : List Nat) : List Nat :=
  (argsortAsc lengths).reverse

/-- Abstraction of `np.random.default_rng` / `Generator.shuffle`: an opaque
generator state seeded from a natural number, whose `shuf` operation returns
a permutation of its input together with the advanced state. -/
structure RngFamily where
  σ : Type
  fresh : Nat → σ
  shuf : σ → List Nat → List Nat × σ
  shuf_perm : ∀ s l, ((shuf s l).1).Perm l

/-- The trivial generator family (shuffling is the identity permutation);
used to evaluate the embedding on concrete inputs. -/
def idRng : RngFamily where
  σ := Unit
  fresh := fun _ => ()
  shuf := fun s l => (l, s)
  shuf_perm := fun _ l => List.Perm.refl l

/-- `BucketedBatchSampler.bucketerize(sorted_indices, batch_size,
num_batch_per_bucket, seed)`.  Buckets of size
`min(len, batch_size*num_batch_per_bucket)` are shuffled internally, chunked
into batches, the globally last batch is set aside, the order of the other
batches is shuffled with a freshly re-seeded generator, and the last batch is
re-appended.  An empty input (or zero bucket size) raises
`ZeroDivisionError` in the source (`(len + bucket_size - 1) // bucket_size`). -/
def bucketerize (A : RngFamily) (sorted_indices : List Nat)
    (batch_size num_batch_per_bucket : Nat) (seed : Int) :
    Except String (List (List Nat)) :=
  let bucket_size := min sorted_indices.length (batch_size * num_batch_per_bucket)
  if bucket_size = 0 then Except.error "ZeroDivisionError"
  else
    let num_buckets := (sorted_indices.length + bucket_size - 1) / bucket_size
    let step := fun (acc : List (List Nat) × A.σ) (bucket : List Nat) =>
      let sh := A.shuf acc.2 bucket
      (acc.1 ++ pyChunk sh.1 batch_size, sh.2)
    let batches :=
      ((chunksExact bucket_size num_buckets sorted_indices).foldl step
        ([], A.fresh seed.natAbs)).1
    let last_batches := match batches.getLast? with
      | some lb => [lb]
      | none => []
    let batch_indices := (List.range batches.length).dropLast
    let permuted := (A.shuf (A.fresh seed.natAbs) batch_indices).1
    Except.ok (permuted.map (fun i => batches.getD i []) ++ last_batches)

/-- State of a `BucketedBatchSampler`.  `length` is the per-sample length
vector (`self.length`); the dataset size is `length.length` (the constructor
asserts they are equal).  `old_num_replicas` is `Option` because
`__init__` never initialises it; it is first assigned at the end of a
completed pass or by `load_state_dict`. -/
structure BucketedState where
  length : List Nat
  batch_size : Nat
  num_batch_per_bucket : Nat
  shuffle : Bool
  drop_last : Bool
  seed : Int
  num_consumed_samples : Nat
  num_replicas : Nat
  rank : Nat
  epoch : Int
  pad : Bool
  during_iter : Bool
  old_batch_size : Nat
  old_num_batch_per_bucket : Nat
  old_num_replicas : Option Nat
deriving DecidableEq

namespace BucketedState

/-- `BucketedBatchSampler.__init__(dataset, length, batch_size,
num_batch_per_bucket, shuffle, drop_last, seed)` with the internal kwarg
`num_consumed_samples` (defaults shown in the source: `num_replicas=1`,
`rank=0`, `epoch=-1`, `pad=False`, `during_iter=False`,
`old_batch_size=batch_size`, `old_num_batch_per_bucket=num_batch_per_bucket`;
`old_num_replicas` is never set). -/
def construct (lengths : List Nat) (batch_size num_batch_per_bucket : Nat)
    (shuffle drop_last : Bool) (seed : Int) (num_consumed_samples : Nat) :
    BucketedState where
  length := lengths
  batch_size := batch_size
  num_batch_per_bucket := num_batch_per_bucket
  shuffle := shuffle
  drop_last := drop_last
  seed := seed
  num_consumed_samples := num_consumed_samples
  num_replicas := 1
  rank := 0
  epoch := -1
  pad := false
  during_iter := false
  old_batch_size := batch_size
  old_num_batch_per_bucket := num_batch_per_bucket
  old_num_replicas := none

/-- `self.sorted_indices` (computed once at construction). -/
def sorted_indices (st : BucketedState) : List Nat :=
  sortedIndicesOf st.length

/-- `BucketedBatchSampler.set_distributed(num_replicas, rank, pad)`. -/
def set_distributed (st : BucketedState) (num_replicas rank : Nat) (pad : Bool) :
    Except String BucketedState :=
  if st.during_iter then Except.error "AssertionError: during iteration"
  else if ¬ 0 < num_replicas then Except.error "AssertionError: num_replicas"
  else if ¬ rank < num_replicas then Except.error "AssertionError: rank"
  else
    let num_samples :=
      if pad then
        (st.length.length + num_replicas - 1) / num_replicas * num_replicas
      else st.length.length
    if st.drop_last ∧ ¬ num_replicas * st.batch_size ≤ num_samples then
      Except.error "AssertionError: drop_last"
    else Except.ok { st with num_replicas := num_replicas, rank := rank, pad := pad }

/-- `num_left_samples` evaluated at a consumed-count `c`
(`math.ceil((N - c)/R)` if `pad` else `math.floor((N - c)/R)`). -/
def numLeftFrom (st : BucketedState) (c : Nat) : Nat :=
  if st.pad then (st.length.length - c + st.num_replicas - 1) / st.num_replicas
  else (st.length.length - c) / st.num_replicas

/-- The property `BucketedBatchSampler.num_left_samples`. -/
def num_left_samples (st : BucketedState) : Nat :=
  st.numLeftFrom st.num_consumed_samples

/-- The property `BucketedBatchSampler.total_size`. -/
def total_size (st : BucketedState) : Nat :=
  st.num_consumed_samples + st.num_replicas * st.num_left_samples

/-- `BucketedBatchSampler.__len__()`. -/
def len (st : BucketedState) : Nat :=
  let num_sampler_per_rank := st.total_size / st.num_replicas
  if st.drop_last then num_sampler_per_rank / st.batch_size
  else (num_sampler_per_rank + st.batch_size - 1) / st.batch_size

/-- The consumed count in effect once `__iter__` starts: re-entering while
`during_iter` forces `num_consumed_samples = 0`. -/
def startConsumed (st : BucketedState) : Nat :=
  if st.during_iter then 0 else st.num_consumed_samples

end BucketedState

/-- Length of Python `zip(*ls)` (number of rows): the minimum list length,
`0` for no lists. -/
def zipLen : List (List α) → Nat
  | [] => 0
  | [l] => l.length
  | l :: ls => min l.length (zipLen ls)

/-- `zip(*_batches)` over per-rank batch lists: rows `j` collect the `j`-th
batch of every rank, truncated at the shortest rank. -/
def transposeMin (ls : List (List (List Nat))) : List (List (List Nat)) :=
  (List.range (zipLen ls)).map fun j => ls.map fun bl => bl.getD j []

namespace BucketedState

/-- The mid-epoch reconstruction of the previous partition in
`BucketedBatchSampler.__iter__` (the `num_consumed_samples > 0` branch under
`shuffle`): bucketerize every old shard's stride slice with the old
configuration, interleave batches round-robin (`zip` truncates at the
shortest shard), and flatten to the old global consumption order. -/
def resumeOldOrder (A : RngFamily) (st : BucketedState) (oldR : Nat) :
    Except String (List Nat) := do
  let sorted0 := sortedIndicesOf st.length
  let bss ← (List.range oldR).mapM fun i =>
    bucketerize A (pySlice sorted0 i oldR) st.old_batch_size
      st.old_num_batch_per_bucket (st.seed + st.epoch)
  pure ((transposeMin bss).flatten).flatten

/-- The padding / truncation adjustment of `__iter__` (lines 285-296):
`need_pad_num = (len(dataset) - num_consumed_samples) % num_replicas`.
With `pad` and `0 < need_pad_num <= rank` the first element of the last
batch is duplicated (a new singleton batch if the last batch is full);
without `pad` and `need_pad_num > rank` the last element of the last batch
is dropped (and the batch removed if emptied).  Indexing an empty list
raises `IndexError` in the source. -/
def padTruncate (st : BucketedState) (c0 : Nat) (batches : List (List Nat)) :
    Except String (List (List Nat)) :=
  if st.pad ∧ (st.length.length - c0) % st.num_replicas ≠ 0 ∧
      (st.length.length - c0) % st.num_replicas ≤ st.rank then
    if 0 < batches.length then
      if (batches.getLastD []).length = 0 then Except.error "IndexError"
      else if (batches.getLastD []).length < st.batch_size then
        Except.ok (batches.dropLast ++
          [batches.getLastD [] ++ [(batches.getLastD []).headD 0]])
      else Except.ok (batches ++ [[(batches.getLastD []).headD 0]])
    else Except.ok batches
  else if st.pad = false ∧ (st.length.length - c0) % st.num_replicas ≠ 0 ∧
      st.rank < (st.length.length - c0) % st.num_replicas then
    if batches.length = 0 then Except.error "IndexError"
    else if (batches.getLastD []).length = 0 then Except.error "IndexError"
    else if ((batches.getLastD []).dropLast).length = 0 then Except.ok batches.dropLast
    else Except.ok (batches.dropLast ++ [(batches.getLastD []).dropLast])
  else Except.ok batches

/-- `BucketedBatchSampler.__iter__` up to (and excluding) the internal
assertion: the during-iteration reset, the mid-epoch reconstruction, the
shard stride slice, bucketing (or plain chunking when `shuffle=False`), and
the pad/truncate adjustment. -/
def iterBatchesPre (A : RngFamily) (st : BucketedState) :
    Except String (List (List Nat)) := do
  let c0 := st.startConsumed
  let sorted0 := sortedIndicesOf st.length
  let batches ←
    if st.shuffle then do
      let si ←
        if 0 < c0 then
          match st.old_num_replicas with
          | none => Except.error "AttributeError"
          | some oldR => do
            let flat ← st.resumeOldOrder A oldR
            let rem := flat.drop c0
            let sub := rem.map (st.length.getD · 0)
            pure ((sortedIndicesOf sub).map (rem.getD · 0))
        else pure sorted0
      let sliced := pySlice si st.rank st.num_replicas
      bucketerize A sliced st.batch_size st.num_batch_per_bucket (st.seed + st.epoch)
    else
      let rem := sorted0.drop c0
      let sliced := pySlice rem st.rank st.num_replicas
      pure (pyChunk sliced st.batch_size)
  st.padTruncate c0 batches

end BucketedState

/-- The final `drop_last` stage of `__iter__`:
`if drop_last and len(batches) >= 1 and len(batches[-1]) < batch_size:
batches = batches[:-1]`. -/
def dropIfShort (dl : Bool) (b : Nat) (bs : List (List Nat)) : List (List Nat) :=
  if dl ∧ 1 ≤ bs.length ∧ (bs.getLastD []).length < b then bs.dropLast else bs

namespace BucketedState

/-- The batches yielded by one pass of `BucketedBatchSampler.__iter__`:
after the pad/truncate stage the assertion
`len(list(chain(*batches))) == self.num_left_samples` must hold, and with
`drop_last` a final short batch is discarded. -/
def iterBatches (A : RngFamily) (st : BucketedState) :
    Except String (List (List Nat)) := do
  let c0 := st.startConsumed
  let bs ← st.iterBatchesPre A
  if sumLen bs ≠ st.numLeftFrom c0 then Except.error "AssertionError"
  else Except.ok (dropIfShort st.drop_last st.batch_size bs)

/-- The sampler state observed after `k` batches of a pass have been yielded
(each yield adds `num_replicas * len(batch)` to `num_consumed_samples`;
`during_iter` is `True` between yields). -/
def midState (st : BucketedState) (bs : List (List Nat)) (k : Nat) : BucketedState :=
  { st with
    num_consumed_samples := st.startConsumed + st.num_replicas * sumLen (bs.take k)
    during_iter := true }

/-- The sampler state after a pass completes normally (generator epilogue):
`during_iter` cleared, `num_consumed_samples` reset, current configuration
snapshotted into the `old_*` fields, `epoch` auto-decremented if the caller
never advanced it. -/
def endState (st : BucketedState) : BucketedState :=
  { st with
    during_iter := false
    num_consumed_samples := 0
    old_batch_size := st.batch_size
    old_num_batch_per_bucket := st.num_batch_per_bucket
    old_num_replicas := some st.num_replicas
    epoch := if st.epoch < 0 then st.epoch - 1 else st.epoch }

end BucketedState

/-- The checkpoint mapping produced by `BucketedBatchSampler.state_dict`. -/
structure SamplerCkpt where
  seed : Int
  epoch : Int
  num_consumed_samples : Nat
  sampler_type : String
  length : Nat
  shuffle : Bool
  batch_size : Nat
  num_batch_per_bucket : Nat
  num_replicas : Nat
deriving DecidableEq

namespace BucketedState

/-- `BucketedBatchSampler.state_dict()`: fails when the batch size or bucket
configuration changed since the `old_*` snapshot; otherwise exports the nine
fields. -/
def state_dict (st : BucketedState) : Except String SamplerCkpt :=
  if st.old_batch_size ≠ st.batch_size ∨
     st.old_num_batch_per_bucket ≠ st.num_batch_per_bucket then
    Except.error "RuntimeError"
  else
    Except.ok
      { seed := st.seed
        epoch := st.epoch
        num_consumed_samples := st.num_consumed_samples
        sampler_type := "BucketedBatchSampler"
        length := st.length.length
        shuffle := st.shuffle
        batch_size := st.batch_size
        num_batch_per_bucket := st.num_batch_per_bucket
        num_replicas := st.num_replicas }

/-- `BucketedBatchSampler.load_state_dict(states)`. -/
def load_state_dict (st : BucketedState) (s : SamplerCkpt) :
    Except String BucketedState :=
  if st.during_iter then Except.error "AssertionError: during iteration"
  else if s.sampler_type ≠ "BucketedBatchSampler" then
    Except.error "AssertionError: sampler type"
  else if s.length ≠ st.length.length then
    Except.error "AssertionError: dataset length"
  else
    Except.ok
      { st with
        seed := s.seed
        epoch := s.epoch
        num_consumed_samples :=
          if s.length ≤ s.num_consumed_samples then 0 else s.num_consumed_samples
        shuffle := s.shuffle
        old_batch_size := s.batch_size
        old_num_batch_per_bucket := s.num_batch_per_bucket
        old_num_replicas := some s.num_replicas }

end BucketedState

/-- State of a `ReproducibleBatchSampler`.  The wrapped `batch_sampler` is an
iterable yielding bare indices or lists of indices; it is modelled as the
list of items it yields. -/
structure ReproState where
  batch_sampler : List (Nat ⊕ List Nat)
  batch_size : Nat
  drop_last : Bool
  data_idx : Nat
  index_list : List Nat
  need_reinitialize : Bool
deriving DecidableEq

/-- `ReproducibleBatchSampler._iterate_sampler`: flatten the wrapped source
into one index sequence (the `array("I"/"L", ...)` packing is a memory
optimisation with no observable effect on values). -/
def iterateSampler (s : List (Nat ⊕ List Nat)) : List Nat :=
  s.flatMap fun it =>
    match it with
    | Sum.inl n => [n]
    | Sum.inr l => l

namespace ReproState

/-- `ReproducibleBatchSampler.__init__(batch_sampler, batch_size, drop_last)`
with default kwargs (`data_idx=0`, `index_list` drawn eagerly from the
source, `need_reinitialize=False`). -/
def construct (batch_sampler : List (Nat ⊕ List Nat)) (batch_size : Nat)
    (drop_last : Bool) : ReproState where
  batch_sampler := batch_sampler
  batch_size := batch_size
  drop_last := drop_last
  data_idx := 0
  index_list := iterateSampler batch_sampler
  need_reinitialize := false

/-- The batches emitted by one pass over `l` (`index_list[data_idx:]`):
full slices of `batch_size`, plus the final partial slice when it is
non-empty and `drop_last` is false. -/
def emitBatches (l : List Nat) (b : Nat) (drop_last : Bool) : List (List Nat) :=
  let n := l.length / b
  chunksExact b n (l.take (n * b)) ++
    (if l.length % b ≠ 0 ∧ ¬ drop_last then [l.drop (n * b)] else [])

/-- One full pass of `ReproducibleBatchSampler.__iter__`: if
`need_reinitialize`, re-derive `index_list` and reset the cursor (the flag
stays set); otherwise set the flag and resume from `data_idx`.  Returns the
emitted batches and the post-pass state (the cursor advances over every
remaining element, including those of a dropped final batch). -/
def runPass (st : ReproState) : List (List Nat) × ReproState :=
  let il := if ReproState.need_reinitialize st then iterateSampler st.batch_sampler else st.index_list
  let di := if ReproState.need_reinitialize st then 0 else st.data_idx
  let rest := il.drop di
  (emitBatches rest st.batch_size st.drop_last,
   { st with index_list := il, data_idx := di + rest.length, need_reinitialize := true })

/-- `ReproducibleBatchSampler.__len__()`. -/
def len (st : ReproState) : Nat :=
  if st.drop_last then st.index_list.length / st.batch_size
  else (st.index_list.length + st.batch_size - 1) / st.batch_size

end ReproState

/-- The per-bucket phase of `bucketerize` written as a recursion (equal to
its `foldl` over the bucket list): shuffle each bucket with the threaded
generator state and chunk it into batches. -/
def shuffleChunkAll (A : RngFamily) (b : Nat) : A.σ → List (List Nat) → List (List Nat)
  | _, [] => []
  | s, bucket :: rest =>
    pyChunk (A.shuf s bucket).1 b ++ shuffleChunkAll A b (A.shuf s bucket).2 rest

/-- The strict order realised by the stable descending argsort: smaller key
first, ties ordered by original position. -/
def keyLt (L : List Nat) (a b : Nat) : Prop :=
  L.getD a 0 < L.getD b 0 ∨ (L.getD a 0 = L.getD b 0 ∧ a < b)

instance (L : List Nat) (a b : Nat) : Decidable (keyLt L a b) := by
  unfold keyLt; infer_instance

/-! Concrete scenario states used by the counterexamples below. -/

/-- A 5-sample sampler, `batch_size=2`, `shuffle=False`, `drop_last=False`,
single construction configuration shared by the C1 scenario. -/
def c1Base : BucketedState := BucketedState.construct [4, 3, 2, 1, 0] 2 10 false false 0 0

/-- The C1 shard: `set_distributed(num_replicas=2, rank=1, pad=True)`. -/
def c1Shard : BucketedState := { c1Base with num_replicas := 2, rank := 1, pad := true }

/-- The checkpoint taken from `c1Shard` at the boundary after its first
yielded batch (`num_consumed_samples = 4`). -/
def c1Ckpt : SamplerCkpt :=
  { seed := 0, epoch := -1, num_consumed_samples := 4
    sampler_type := "BucketedBatchSampler", length := 5, shuffle := false
    batch_size := 2, num_batch_per_bucket := 10, num_replicas := 2 }

/-- The fresh identically configured C1 instance after loading `c1Ckpt`. -/
def c1Resumed : BucketedState :=
  { c1Shard with num_consumed_samples := 4, old_num_replicas := some 2 }

/-- The C2 scenario: 3 samples, `batch_size=2`, `shuffle=False`,
`drop_last=True`, single shard with `pad=True`. -/
def c2Shard : BucketedState :=
  { BucketedState.construct [2, 1, 0] 2 10 false true 0 0 with pad := true }

/-- A 9-sample sampler, `batch_size=2`, `num_batch_per_bucket=1`,
`shuffle=True`, `drop_last=False`, shared by the C9 scenario. -/
def c9Base : BucketedState := BucketedState.construct [8, 7, 6, 5, 4, 3, 2, 1, 0] 2 1 true false 0 0

/-- The C9 saving shard: `set_distributed(num_replicas=2, rank=1, pad=True)`. -/
def c9Saving : BucketedState := { c9Base with num_replicas := 2, rank := 1, pad := true }

/-- The C9 fresh rank-0 shard with the same configuration. -/
def c9Fresh : BucketedState := { c9Base with num_replicas := 2, rank := 0, pad := true }

/-- The checkpoint taken from `c9Saving` at the boundary after its first
yielded batch (`num_consumed_samples = 4`). -/
def c9Ckpt : SamplerCkpt :=
  { seed := 0, epoch := -1, num_consumed_samples := 4
    sampler_type := "BucketedBatchSampler", length := 9, shuffle := true
    batch_size := 2, num_batch_per_bucket := 1, num_replicas := 2 }

/-- `c9Fresh` after loading `c9Ckpt`. -/
def c9Resumed : BucketedState :=
  { c9Fresh with num_consumed_samples := 4, old_num_replicas := some 2 }

/-- The C8 scenario: a `ReproducibleBatchSampler` over a source yielding
`0,1,2,3`, `batch_size=2`, reconstructed with the resume kwarg
`data_idx=2`. -/
def c8Resume : ReproState :=
  { ReproState.construct [Sum.inl 0, Sum.inl 1, Sum.inl 2, Sum.inl 3] 2 false with
    data_idx := 2 }

/-! ### Supporting lemmas: slicing, chunking, permutations -/

theorem pySlice_cons_zero (x : α) (xs : List α) (s : Nat) :
    pySlice (x :: xs) 0 s = x :: pySlice xs (s - 1) s := rfl

theorem pySlice_cons_succ (x : α) (xs : List α) (r s : Nat) :
    pySlice (x :: xs) (r + 1) s = pySlice xs r s := rfl

/-- With stride `1`, a Python slice `l[r::1]` is `drop r`. -/
theorem pySlice_one (l : List α) (r : Nat) : pySlice l r 1 = l.drop r := by
  induction l generalizing r with
  | nil => simp [pySlice]
  | cons x xs ih =>
    cases r with
    | zero => rw [pySlice_cons_zero, ih, List.drop_zero, List.drop_zero]
    | succ r => rw [pySlice_cons_succ, ih, List.drop_succ_cons]

/-- `len(l[r::s]) = ceil((len(l) - r)/s)` for `s ≥ 1`. -/
theorem pySlice_length (s : Nat) (hs : 1 ≤ s) (l : List α) (r : Nat) :
    (pySlice l r s).length = (l.length - r + s - 1) / s := by
  induction l generalizing r with
  | nil =>
    simp only [pySlice, List.length_nil, Nat.zero_sub]
    rw [Nat.div_eq_of_lt (by omega)]
  | cons x xs ih =>
    cases r with
    | zero =>
      rw [pySlice_cons_zero]
      simp only [List.length_cons]
      rw [ih (s - 1)]
      rcases le_or_lt (s - 1) xs.length with h | h
      · have h1 : xs.length - (s - 1) + s - 1 = xs.length := by omega
        have h2 : xs.length + 1 - 0 + s - 1 = xs.length + s := by omega
        rw [h1, h2, Nat.add_div_right _ hs]
      · have h1 : xs.length - (s - 1) + s - 1 = s - 1 := by omega
        have h2 : xs.length + 1 - 0 + s - 1 = xs.length + s := by omega
        rw [h1, h2, Nat.add_div_right _ hs, Nat.div_eq_of_lt (by omega),
          Nat.div_eq_of_lt (by omega)]
    | succ r =>
      rw [pySlice_cons_succ, ih r]
      simp only [List.length_cons]
      congr 1
      omega

/-- Every element of a Python slice comes from the sliced list. -/
theorem pySlice_subset {x : α} : ∀ (l : List α) (r s : Nat), x ∈ pySlice l r s → x ∈ l
  | [], _, _ => by simp [pySlice]
  | _ :: _, 0, s => by
    rw [pySlice_cons_zero]
    intro h
    rcases List.mem_cons.mp h with h | h
    · exact h ▸ List.mem_cons_self _ _
    · exact List.mem_cons_of_mem _ (pySlice_subset _ _ _ h)
  | _ :: _, r + 1, s => by
    rw [pySlice_cons_succ]
    intro h
    exact List.mem_cons_of_mem _ (pySlice_subset _ _ _ h)

/-- Every element of `l` lands in the slice of some residue `r < s`
(`s ≥ 1`): the stride slices jointly cover the list. -/
theorem pySlice_cover (s : Nat) (hs : 1 ≤ s) {x : α} :
    ∀ l : List α, x ∈ l → ∃ r < s, x ∈ pySlice l r s
  | [], hx => absurd hx (List.not_mem_nil x)
  | y :: xs, hx => by
    rcases List.mem_cons.mp hx with h | h
    · exact ⟨0, hs, by rw [pySlice_cons_zero]; exact h ▸ List.mem_cons_self _ _⟩
    · obtain ⟨r, hr, hmem⟩ := pySlice_cover s hs xs h
      rcases Nat.lt_or_ge (r + 1) s with h1 | h1
      · exact ⟨r + 1, h1, by rw [pySlice_cons_succ]; exact hmem⟩
      · have : r = s - 1 := by omega
        exact ⟨0, hs, by rw [pySlice_cons_zero, ← this]; exact List.mem_cons_of_mem _ hmem⟩

theorem chunksExact_flatten (b : Nat) :
    ∀ (n : Nat) (l : List α), (chunksExact b n l).flatten = l.take (n * b)
  | 0, l => by simp [chunksExact]
  | n + 1, l => by
    rw [chunksExact, List.flatten_cons, chunksExact_flatten b n (l.drop b)]
    rw [show (n + 1) * b = b + n * b by ring, List.take_add]

theorem sumLen_eq_flatten (bs : List (List Nat)) : sumLen bs = bs.flatten.length := by
  simp [sumLen]

/-- Chunking never loses elements: the concatenation of the chunks is the
input (`drop_last` is applied later, outside the chunking). -/
theorem pyChunk_flatten (l : List α) (b : Nat) : (pyChunk l b).flatten = l := by
  unfold pyChunk
  rcases Nat.eq_zero_or_pos (l.length / b) with h | h
  · simp [h]
  · rw [if_neg (by omega), List.flatten_append, chunksExact_flatten,
      List.take_take, Nat.min_self]
    rcases Nat.eq_zero_or_pos (l.length % b) with h2 | h2
    · have hb : b ∣ l.length := Nat.dvd_of_mod_eq_zero h2
      rw [if_pos h2, Nat.div_mul_cancel hb]
      simp
    · rw [if_neg (by omega)]
      simp [List.take_append_drop]

theorem pyChunk_ne_nil (l : List α) (b : Nat) : pyChunk l b ≠ [] := by
  unfold pyChunk
  rcases Nat.eq_zero_or_pos (l.length / b) with h | h
  · simp [h]
  · rw [if_neg (by omega)]
    obtain ⟨m, hm⟩ : ∃ m, l.length / b = m + 1 := ⟨l.length / b - 1, by omega⟩
    rw [hm, chunksExact]
    simp

/-- When the list fits in one batch, the chunking returns the whole list as
a single batch (also when the list is empty: the source then produces
`[[]]`, a single empty batch). -/
theorem pyChunk_of_le {l : List α} {b : Nat} (hb : 1 ≤ b) (h : l.length ≤ b) :
    pyChunk l b = [l] := by
  unfold pyChunk
  rcases Nat.lt_or_ge l.length b with h1 | h1
  · rw [Nat.div_eq_of_lt h1]
    simp
  · have hlen : l.length = b := by omega
    have hdiv : l.length / b = 1 := by rw [hlen, Nat.div_self (by omega)]
    have hmod : l.length % b = 0 := by rw [hlen, Nat.mod_self]
    rw [hdiv, if_neg (by omega), hmod, if_pos rfl, Nat.one_mul, chunksExact, chunksExact]
    rw [List.take_take, Nat.min_self, List.take_of_length_le (le_of_eq hlen)]
    simp

/-- When the list is longer than one batch, chunking peels off the first
`b` elements. -/
theorem pyChunk_of_lt {l : List α} {b : Nat} (hb : 1 ≤ b) (h : b < l.length) :
    pyChunk l b = l.take b :: pyChunk (l.drop b) b := by
  have hdm := Nat.div_add_mod l.length b
  have hmlt : l.length % b < b := Nat.mod_lt _ (by omega)
  have hn1 : 1 ≤ l.length / b := (Nat.one_le_div_iff (by omega)).mpr (by omega)
  obtain ⟨m, hm⟩ : ∃ m, l.length / b = m + 1 := ⟨l.length / b - 1, by omega⟩
  have hlb : l.length - b + b = l.length := by omega
  have hdiv' : (l.drop b).length / b = m := by
    rw [List.length_drop]
    have h2 : (l.length - b + b) / b = (l.length - b) / b + 1 := Nat.add_div_right _ (by omega)
    rw [hlb] at h2
    omega
  have hmod' : (l.drop b).length % b = l.length % b := by
    rw [List.length_drop]
    have h2 : (l.length - b + b) % b = (l.length - b) % b := Nat.add_mod_right _ _
    rw [hlb] at h2
    omega
  have hble : b ≤ (m + 1) * b := by nlinarith
  have htt : (l.take ((m + 1) * b)).take b = l.take b := by
    rw [List.take_take]
    congr 1
    omega
  have htd : (l.take ((m + 1) * b)).drop b = (l.drop b).take (m * b) := by
    rw [List.drop_take]
    congr 1
    have hmm : (m + 1) * b = m * b + b := by ring
    omega
  have hdd : l.drop ((m + 1) * b) = (l.drop b).drop (m * b) := by
    rw [List.drop_drop]
    congr 1
    ring
  have hrhs : pyChunk (l.drop b) b =
      if m = 0 then [l.drop b]
      else chunksExact b m ((l.drop b).take (m * b)) ++
        (if l.length % b = 0 then [] else [(l.drop b).drop (m * b)]) := by
    unfold pyChunk
    rw [hdiv', hmod']
  have hlhs : pyChunk l b =
      chunksExact b (m + 1) (l.take ((m + 1) * b)) ++
        (if l.length % b = 0 then [] else [l.drop ((m + 1) * b)]) := by
    unfold pyChunk
    rw [hm, if_neg (by omega)]
  rw [hlhs, hrhs, chunksExact, htt, htd, hdd, List.cons_append]
  rcases Nat.eq_zero_or_pos m with hm0 | hm0
  · subst hm0
    have hmod0 : l.length % b ≠ 0 := by
      rw [hm] at hdm
      have hb1 : b * (0 + 1) = b := by ring
      rw [hb1] at hdm
      omega
    simp [chunksExact, hmod0]
  · rw [if_neg (show ¬ m = 0 by omega)]

/-- A permutation of a singleton is that singleton. -/
theorem perm_singleton {l : List Nat} {a : Nat} (h : l.Perm [a]) : l = [a] := by
  have hl := h.length_eq
  match l, hl with
  | [x], _ =>
    have : x ∈ [a] := h.mem_iff.mp (List.mem_singleton_self x)
    rw [List.mem_singleton.mp this]

/-- A permutation of a two-element list of distinct elements is one of its
two arrangements. -/
theorem perm_pair {l : List Nat} {a b : Nat} (h : l.Perm [a, b]) :
    l = [a, b] ∨ l = [b, a] := by
  have hl := h.length_eq
  match l, hl with
  | [x, y], _ =>
    have hx : x ∈ [a, b] := h.mem_iff.mp (by simp)
    rcases List.mem_cons.mp hx with rfl | hx
    · left
      have h2 := h.cons_inv
      rw [perm_singleton h2]
    · obtain rfl := List.mem_singleton.mp hx
      right
      have hswap : List.Perm [x, y] [x, a] := h.trans (List.Perm.swap x a [])
      have h2 := hswap.cons_inv
      rw [perm_singleton h2]

/-- `(range k).map (bs.getD · d) = bs.take k` for `k ≤ len(bs)` (models
numpy fancy indexing by an in-range index list). -/
theorem map_getD_range {α : Type} (bs : List α) (d : α) (k : Nat) (hk : k ≤ bs.length) :
    (List.range k).map (fun i => bs.getD i d) = bs.take k := by
  apply List.ext_getElem
  · simp [hk]
  · intro i h1 h2
    simp only [List.getElem_map, List.getElem_range, List.getElem_take]
    rw [List.getD_eq_getElem]

theorem sumLen_append (xs ys : List (List Nat)) :
    sumLen (xs ++ ys) = sumLen xs + sumLen ys := by
  simp [sumLen]

/-! ### Supporting lemmas: `bucketerize` -/

theorem shuffleChunkAll_flatten_perm (A : RngFamily) (b : Nat) :
    ∀ (s : A.σ) (L : List (List Nat)),
      (shuffleChunkAll A b s L).flatten.Perm L.flatten
  | _, [] => by simp [shuffleChunkAll]
  | s, bucket :: rest => by
    rw [shuffleChunkAll, List.flatten_append, List.flatten_cons]
    exact List.Perm.append
      (by rw [pyChunk_flatten]; exact A.shuf_perm s bucket)
      (shuffleChunkAll_flatten_perm A b _ rest)

theorem foldl_shuffleChunk (A : RngFamily) (b : Nat) :
    ∀ (L : List (List Nat)) (acc : List (List Nat)) (s : A.σ),
      (L.foldl (fun acc bucket =>
        let sh := A.shuf acc.2 bucket
        (acc.1 ++ pyChunk sh.1 b, sh.2)) (acc, s)).1 = acc ++ shuffleChunkAll A b s L
  | [], acc, s => by simp [shuffleChunkAll]
  | bucket :: rest, acc, s => by
    rw [List.foldl_cons, shuffleChunkAll]
    rw [foldl_shuffleChunk A b rest _ _]
    simp

/-- The ceiling division `(x + c - 1) / c` reaches `x` when multiplied
back. -/
theorem le_ceil_mul (x c : Nat) (hc : 1 ≤ c) : x ≤ (x + c - 1) / c * c := by
  have hdm := Nat.div_add_mod (x + c - 1) c
  have hmlt : (x + c - 1) % c < c := Nat.mod_lt _ (by omega)
  rw [Nat.mul_comm] at hdm
  omega

/-- On a non-empty input with a positive bucket capacity, `bucketerize`
succeeds and the concatenation of the returned batches is a permutation of
the input. -/
theorem bucketerize_ok (A : RngFamily) (l : List Nat) (b nb : Nat) (sd : Int)
    (hl : l ≠ []) (hbn : 1 ≤ b * nb) :
    ∃ bs, bucketerize A l b nb sd = Except.ok bs ∧ bs.flatten.Perm l ∧ bs ≠ [] := by
  have hlen : 1 ≤ l.length := List.length_pos.mpr hl
  have hmin : ¬ min l.length (b * nb) = 0 := by omega
  simp only [bucketerize, if_neg hmin]
  rw [foldl_shuffleChunk, List.nil_append]
  set bsz := min l.length (b * nb) with hbsz
  set n := (l.length + bsz - 1) / bsz with hn
  set batches := shuffleChunkAll A b (A.fresh sd.natAbs) (chunksExact bsz n l)
    with hbatches
  have hbne : batches ≠ [] := by
    rw [hbatches]
    have hn1 : 1 ≤ n := by
      rw [hn]
      exact (Nat.one_le_div_iff (by omega)).mpr (by omega)
    obtain ⟨m, hm⟩ : ∃ m, n = m + 1 := ⟨n - 1, by omega⟩
    rw [hm, chunksExact, shuffleChunkAll, Ne, List.append_eq_nil]
    rintro ⟨h1, -⟩
    exact pyChunk_ne_nil _ _ h1
  have hperm1 : batches.flatten.Perm l := by
    have h1 := shuffleChunkAll_flatten_perm A b (A.fresh sd.natAbs) (chunksExact bsz n l)
    rw [chunksExact_flatten] at h1
    rwa [List.take_of_length_le (by rw [hn]; exact le_ceil_mul l.length bsz (by omega))] at h1
  refine ⟨_, rfl, ?_, ?_⟩
  · rw [List.getLast?_eq_getLast batches hbne]
    obtain ⟨m, hm⟩ : ∃ m, batches.length = m + 1 :=
      ⟨batches.length - 1, by
        have := List.length_pos.mpr hbne
        omega⟩
    have hdrop : (List.range batches.length).dropLast = List.range m := by
      rw [hm, List.range_succ, List.dropLast_concat]
    rw [hdrop]
    have hpm : ((A.shuf (A.fresh sd.natAbs) (List.range m)).1).Perm (List.range m) :=
      A.shuf_perm _ _
    have hmap : (((A.shuf (A.fresh sd.natAbs) (List.range m)).1).map
        (fun i => batches.getD i [])).Perm (batches.dropLast) := by
      have h2 := hpm.map (fun i => batches.getD i [])
      rw [map_getD_range batches [] m (by omega)] at h2
      rw [List.dropLast_eq_take, hm]
      simpa using h2
    have hsplit : batches.dropLast ++ [batches.getLast hbne] = batches :=
      List.dropLast_append_getLast hbne
    rw [List.flatten_append]
    refine ((hmap.flatten).append_right ([batches.getLast hbne].flatten)).trans ?_
    rw [← List.flatten_append, hsplit]
    exact hperm1
  · rw [List.getLast?_eq_getLast batches hbne, Ne, List.append_eq_nil]
    rintro ⟨-, h2⟩
    exact List.cons_ne_nil _ _ h2

/-- A successful `bucketerize` implies a non-empty input and a positive
bucket capacity (otherwise the source raises `ZeroDivisionError`). -/
theorem bucketerize_ok_facts {A : RngFamily} {l : List Nat} {b nb : Nat} {sd : Int}
    {bs : List (List Nat)} (h : bucketerize A l b nb sd = Except.ok bs) :
    l ≠ [] ∧ 1 ≤ b * nb := by
  by_cases hmin : min l.length (b * nb) = 0
  · unfold bucketerize at h
    rw [if_pos hmin] at h
    exact absurd h (by simp)
  · have h1 : 1 ≤ l.length := by omega
    exact ⟨List.ne_nil_of_length_pos h1, by omega⟩

theorem bucketerize_perm {A : RngFamily} {l : List Nat} {b nb : Nat} {sd : Int}
    {bs : List (List Nat)} (h : bucketerize A l b nb sd = Except.ok bs) :
    bs.flatten.Perm l := by
  obtain ⟨hl, hbn⟩ := bucketerize_ok_facts h
  obtain ⟨bs', hok, hperm, hne⟩ := bucketerize_ok A l b nb sd hl hbn
  rw [h] at hok
  injection hok with h2
  rwa [h2]

theorem bucketerize_ne_nil {A : RngFamily} {l : List Nat} {b nb : Nat} {sd : Int}
    {bs : List (List Nat)} (h : bucketerize A l b nb sd = Except.ok bs) :
    bs ≠ [] := by
  obtain ⟨hl, hbn⟩ := bucketerize_ok_facts h
  obtain ⟨bs', hok, hperm, hne⟩ := bucketerize_ok A l b nb sd hl hbn
  rw [h] at hok
  injection hok with h2
  rwa [h2]

/-! ### Supporting lemmas: the stable descending argsort -/

theorem keyLt_trans (L : List Nat) {a b c : Nat} (h1 : keyLt L a b) (h2 : keyLt L b c) :
    keyLt L a c := by
  unfold keyLt at *
  omega

theorem insertAsc_perm (L : List Nat) (i : Nat) :
    ∀ acc : List Nat, (insertAsc L i acc).Perm (i :: acc)
  | [] => List.Perm.refl _
  | j :: rest => by
    rw [insertAsc]
    by_cases h : L.getD i 0 < L.getD j 0
    · rw [if_pos h]
    · rw [if_neg h]
      exact ((insertAsc_perm L i rest).cons j).trans (List.Perm.swap i j rest)

theorem insertAsc_pairwise (L : List Nat) (i : Nat) :
    ∀ acc : List Nat, acc.Pairwise (keyLt L) → (∀ k ∈ acc, k < i) →
      (insertAsc L i acc).Pairwise (keyLt L)
  | [], _, _ => by simp [insertAsc, keyLt]
  | j :: rest, hp, hlt => by
    rw [insertAsc]
    by_cases h : L.getD i 0 < L.getD j 0
    · rw [if_pos h]
      refine List.Pairwise.cons ?_ hp
      intro x hx
      rcases List.mem_cons.mp hx with rfl | hx
      · exact Or.inl h
      · exact keyLt_trans L (Or.inl h) ((List.pairwise_cons.mp hp).1 x hx)
    · rw [if_neg h]
      refine List.Pairwise.cons ?_ ?_
      · intro x hx
        have hx' : x ∈ i :: rest := (insertAsc_perm L i rest).mem_iff.mp hx
        rcases List.mem_cons.mp hx' with h1 | hx2
        · subst h1
          have hj : j < x := hlt j (List.mem_cons_self _ _)
          unfold keyLt
          omega
        · exact (List.pairwise_cons.mp hp).1 x hx2
      · exact insertAsc_pairwise L i rest (List.pairwise_cons.mp hp).2
          (fun k hk => hlt k (List.mem_cons_of_mem _ hk))

theorem foldl_insert_perm (L : List Nat) :
    ∀ (l acc : List Nat), (l.foldl (fun acc i => insertAsc L i acc) acc).Perm (acc ++ l)
  | [], acc => by simp
  | x :: l, acc => by
    rw [List.foldl_cons]
    refine (foldl_insert_perm L l _).trans ?_
    refine ((insertAsc_perm L x acc).append_right l).trans ?_
    rw [List.cons_append]
    exact List.perm_middle.symm

theorem foldl_insert_pairwise (L : List Nat) :
    ∀ (l acc : List Nat), acc.Pairwise (keyLt L) → l.Pairwise (· < ·) →
      (∀ k ∈ acc, ∀ m ∈ l, k < m) →
      (l.foldl (fun acc i => insertAsc L i acc) acc).Pairwise (keyLt L)
  | [], _, hacc, _, _ => hacc
  | x :: l, acc, hacc, hl, hcross => by
    rw [List.foldl_cons]
    refine foldl_insert_pairwise L l (insertAsc L x acc) ?_ hl.tail ?_
    · exact insertAsc_pairwise L x acc hacc
        (fun k hk => hcross k hk x (List.mem_cons_self _ _))
    · intro k hk m hm
      have hk' : k ∈ x :: acc := (insertAsc_perm L x acc).mem_iff.mp hk
      rcases List.mem_cons.mp hk' with rfl | hk2
      · exact (List.pairwise_cons.mp hl).1 m hm
      · exact hcross k hk2 m (List.mem_cons_of_mem _ hm)

theorem argsortAsc_perm (L : List Nat) :
    (argsortAsc L).Perm (List.range L.length) := by
  unfold argsortAsc
  simpa using foldl_insert_perm L (List.range L.length) []

theorem argsortAsc_pairwise (L : List Nat) : (argsortAsc L).Pairwise (keyLt L) :=
  foldl_insert_pairwise L (List.range L.length) [] List.Pairwise.nil
    (List.pairwise_lt_range _) (by simp)

/-- `sorted_indices` is a permutation of `range N`. -/
theorem sortedIndicesOf_perm (L : List Nat) :
    (sortedIndicesOf L).Perm (List.range L.length) :=
  (List.reverse_perm _).trans (argsortAsc_perm L)

theorem sortedIndicesOf_length (L : List Nat) :
    (sortedIndicesOf L).length = L.length := by
  have h := (sortedIndicesOf_perm L).length_eq
  simpa using h

/-- `sorted_indices` is strictly ordered by descending key with ties in
reversed original order. -/
theorem sortedIndicesOf_pairwise (L : List Nat) :
    (sortedIndicesOf L).Pairwise (fun a b => keyLt L b a) := by
  unfold sortedIndicesOf
  rw [List.pairwise_reverse]
  exact argsortAsc_pairwise L

/-! ### Supporting lemmas: arithmetic -/

/-- `(x + b - 1) / b` is exactly the mathematical ceiling of `x / b`. -/
theorem ceil_div_cast (x b : Nat) (hb : 1 ≤ b) :
    ⌈(x : ℚ) / (b : ℚ)⌉₊ = (x + b - 1) / b := by
  rcases Nat.eq_zero_or_pos x with rfl | hx
  · have h0 : (b - 1) / b = 0 := Nat.div_eq_of_lt (by omega)
    simp [h0]
  · have hb' : (0 : ℚ) < b := by positivity
    have hdm := Nat.div_add_mod (x + b - 1) b
    have hml : (x + b - 1) % b < b := Nat.mod_lt _ (by omega)
    set n := (x + b - 1) / b with hn
    clear_value n
    have h1 : x ≤ b * n := by omega
    have hn1 : 1 ≤ n := by
      by_contra hc
      have hn0 : n = 0 := by omega
      rw [hn0, Nat.mul_zero] at h1
      omega
    obtain ⟨m, hm⟩ : ∃ m, n = m + 1 := ⟨n - 1, by omega⟩
    have h2 : b * (n - 1) < x := by
      have hexp : b * n = b * m + b := by rw [hm]; ring
      have hexp2 : b * (n - 1) = b * m := by rw [hm, Nat.add_sub_cancel]
      omega
    rw [Nat.ceil_eq_iff (show n ≠ 0 by omega)]
    constructor
    · rw [lt_div_iff₀ hb']
      have h2' : (n - 1) * b < x := by rw [Nat.mul_comm]; exact h2
      exact_mod_cast h2'
    · rw [div_le_iff₀ hb']
      have h1' : x ≤ n * b := by rw [Nat.mul_comm]; exact h1
      exact_mod_cast h1'

/-- Helper: `(R*q + a + R - 1) / R = q` if `a = 0` else `q + 1`, for
`a < R`. -/
theorem ceil_shift (R q a : Nat) (hR : 1 ≤ R) (ha : a < R) :
    (R * q + a + R - 1) / R = q + (if a = 0 then 0 else 1) := by
  rcases Nat.eq_zero_or_pos a with rfl | ha1
  · rw [if_pos rfl]
    have h1 : R * q + 0 + R - 1 = R * q + (R - 1) := by omega
    rw [h1, Nat.mul_add_div (by omega), Nat.div_eq_of_lt (by omega)]
  · rw [if_neg (by omega)]
    have hexp : R * (q + 1) = R * q + R := by ring
    have h1 : R * q + a + R - 1 = R * (q + 1) + (a - 1) := by omega
    rw [h1, Nat.mul_add_div (by omega), Nat.div_eq_of_lt (by omega)]

/-- Shard-size accounting for a fresh padded pass: the stride-slice size of
rank `r` plus the pad adjustment equals `ceil(N / R)`. -/
theorem slice_pad_count (N R r : Nat) (hR : 1 ≤ R) (hr : r < R) :
    (N - r + R - 1) / R + (if N % R ≠ 0 ∧ N % R ≤ r then 1 else 0)
      = (N + R - 1) / R := by
  have hdm := Nat.div_add_mod N R
  have hp : N % R < R := Nat.mod_lt _ (by omega)
  set q := N / R with hq
  set p := N % R with hpdef
  clear_value q p
  have hceilN : (N + R - 1) / R = q + (if p = 0 then 0 else 1) := by
    rw [show N + R - 1 = R * q + p + R - 1 by omega]
    exact ceil_shift R q p (by omega) hp
  rcases le_or_lt r p with hrp | hpr
  · have harg : N - r + R - 1 = R * q + (p - r) + R - 1 := by omega
    have hs : (N - r + R - 1) / R = q + (if p - r = 0 then 0 else 1) := by
      rw [harg]
      exact ceil_shift R q (p - r) (by omega) (by omega)
    rw [hs, hceilN]
    split_ifs <;> omega
  · rcases Nat.eq_zero_or_pos q with hq0 | hq1
    · have hNp : N = p := by rw [hq0] at hdm; omega
      have harg : N - r + R - 1 = R - 1 := by omega
      have hs : (N - r + R - 1) / R = 0 := by
        rw [harg]
        exact Nat.div_eq_of_lt (by omega)
      rw [hs, hceilN]
      split_ifs <;> omega
    · obtain ⟨q', hq'⟩ : ∃ q', q = q' + 1 := ⟨q - 1, by omega⟩
      have hexp : R * (q' + 1) = R * q' + R := by ring
      have hdm' : R * (q' + 1) + p = N := by rw [← hq']; exact hdm
      have harg : N - r + R - 1 = R * q' + (R + p - r) + R - 1 := by omega
      have hs : (N - r + R - 1) / R = q' + 1 := by
        rw [harg, ceil_shift R q' (R + p - r) (by omega) (by omega), if_neg (by omega)]
      rw [hs, hceilN, hq']
      split_ifs <;> omega

/-- Shard-size accounting for a fresh non-padded pass: the stride-slice
size of rank `r` minus the truncation adjustment equals `floor(N / R)`,
and the slice is non-empty whenever the truncation fires. -/
theorem slice_nopad_count (N R r : Nat) (hR : 1 ≤ R) (hr : r < R) :
    (N - r + R - 1) / R - (if N % R ≠ 0 ∧ r < N % R then 1 else 0) = N / R ∧
    (N % R ≠ 0 ∧ r < N % R → 1 ≤ (N - r + R - 1) / R) := by
  have hdm := Nat.div_add_mod N R
  have hp : N % R < R := Nat.mod_lt _ (by omega)
  set q := N / R with hq
  set p := N % R with hpdef
  clear_value q p
  rcases le_or_lt r p with hrp | hpr
  · have harg : N - r + R - 1 = R * q + (p - r) + R - 1 := by omega
    have hs : (N - r + R - 1) / R = q + (if p - r = 0 then 0 else 1) := by
      rw [harg]
      exact ceil_shift R q (p - r) (by omega) (by omega)
    rw [hs]
    constructor
    · split_ifs <;> omega
    · intro hcond
      split_ifs <;> omega
  · rcases Nat.eq_zero_or_pos q with hq0 | hq1
    · have hNp : N = p := by rw [hq0] at hdm; omega
      have harg : N - r + R - 1 = R - 1 := by omega
      have hs : (N - r + R - 1) / R = 0 := by
        rw [harg]
        exact Nat.div_eq_of_lt (by omega)
      rw [hs]
      constructor
      · split_ifs <;> omega
      · intro hcond
        omega
    · obtain ⟨q', hq'⟩ : ∃ q', q = q' + 1 := ⟨q - 1, by omega⟩
      have hexp : R * (q' + 1) = R * q' + R := by ring
      have hdm' : R * (q' + 1) + p = N := by rw [← hq']; exact hdm
      have harg : N - r + R - 1 = R * q' + (R + p - r) + R - 1 := by omega
      have hs : (N - r + R - 1) / R = q' + 1 := by
        rw [harg, ceil_shift R q' (R + p - r) (by omega) (by omega), if_neg (by omega)]
      rw [hs, hq']
      constructor
      · split_ifs <;> omega
      · intro hcond
        omega

/-! ### Supporting lemmas: unpacking the iteration pipeline -/

theorem except_bind_ok {ε α β : Type} {x : Except ε α} {f : α → Except ε β} {b : β}
    (h : (x >>= f) = Except.ok b) : ∃ a, x = Except.ok a ∧ f a = Except.ok b := by
  cases x with
  | error e => simp [Bind.bind, Except.bind] at h
  | ok a => exact ⟨a, rfl, by simpa [Bind.bind, Except.bind] using h⟩

/-- Case analysis of the pad/truncate stage on a successful result: either
the pad duplication added one sample, the truncation removed one, or the
batches passed through unchanged. -/
theorem padTruncate_sum {st : BucketedState} {c0 : Nat} {batches bs : List (List Nat)}
    (h : st.padTruncate c0 batches = Except.ok bs) :
    (st.pad = true ∧ (st.length.length - c0) % st.num_replicas ≠ 0 ∧
       (st.length.length - c0) % st.num_replicas ≤ st.rank ∧ batches ≠ [] ∧
       sumLen bs = sumLen batches + 1) ∨
    (st.pad = false ∧ (st.length.length - c0) % st.num_replicas ≠ 0 ∧
       st.rank < (st.length.length - c0) % st.num_replicas ∧
       sumLen bs + 1 = sumLen batches) ∨
    (bs = batches ∧
       ((st.pad = true ∧ batches = []) ∨
        (¬(st.pad = true ∧ (st.length.length - c0) % st.num_replicas ≠ 0 ∧
            (st.length.length - c0) % st.num_replicas ≤ st.rank) ∧
         ¬(st.pad = false ∧ (st.length.length - c0) % st.num_replicas ≠ 0 ∧
            st.rank < (st.length.length - c0) % st.num_replicas)))) := by
  unfold BucketedState.padTruncate at h
  by_cases h1 : st.pad = true ∧ (st.length.length - c0) % st.num_replicas ≠ 0 ∧
      (st.length.length - c0) % st.num_replicas ≤ st.rank
  · rw [if_pos (by simpa using h1)] at h
    by_cases h2 : 0 < batches.length
    · rw [if_pos h2] at h
      have hbne : batches ≠ [] := List.ne_nil_of_length_pos h2
      have hsplit : batches.dropLast ++ [batches.getLastD []] = batches := by
        rw [List.getLastD_eq_getLast? , List.getLast?_eq_getLast batches hbne]
        exact List.dropLast_append_getLast hbne
      by_cases h3 : (batches.getLastD []).length = 0
      · rw [if_pos h3] at h
        exact absurd h (by simp)
      · rw [if_neg h3] at h
        by_cases h4 : (batches.getLastD []).length < st.batch_size
        · rw [if_pos h4] at h
          injection h with hbs
          refine Or.inl ⟨h1.1, h1.2.1, h1.2.2, hbne, ?_⟩
          rw [← hbs]
          conv_rhs => rw [← hsplit]
          rw [sumLen_append, sumLen_append]
          simp only [sumLen, List.map_cons, List.map_nil, List.sum_cons, List.sum_nil,
            List.length_append, List.length_cons, List.length_nil]
          omega
        · rw [if_neg h4] at h
          injection h with hbs
          refine Or.inl ⟨h1.1, h1.2.1, h1.2.2, hbne, ?_⟩
          rw [← hbs, sumLen_append]
          simp [sumLen]
    · rw [if_neg h2] at h
      injection h with hbs
      refine Or.inr (Or.inr ⟨hbs.symm, Or.inl ⟨h1.1, ?_⟩⟩)
      have h0 : batches.length = 0 := by omega
      exact List.length_eq_zero.mp h0
  · rw [if_neg (by simpa using h1)] at h
    by_cases h2 : st.pad = false ∧ (st.length.length - c0) % st.num_replicas ≠ 0 ∧
        st.rank < (st.length.length - c0) % st.num_replicas
    · rw [if_pos (by simpa using h2)] at h
      by_cases h3 : batches.length = 0
      · rw [if_pos h3] at h
        exact absurd h (by simp)
      · rw [if_neg h3] at h
        have hbne : batches ≠ [] := by
          intro hnil
          rw [hnil] at h3
          simp at h3
        have hsplit : batches.dropLast ++ [batches.getLastD []] = batches := by
          rw [List.getLastD_eq_getLast? , List.getLast?_eq_getLast batches hbne]
          exact List.dropLast_append_getLast hbne
        by_cases h4 : (batches.getLastD []).length = 0
        · rw [if_pos h4] at h
          exact absurd h (by simp)
        · rw [if_neg h4] at h
          have hdl := List.length_dropLast (batches.getLastD [])
          by_cases h5 : ((batches.getLastD []).dropLast).length = 0
          · rw [if_pos h5] at h
            injection h with hbs
            refine Or.inr (Or.inl ⟨h2.1, h2.2.1, h2.2.2, ?_⟩)
            rw [← hbs]
            conv_rhs => rw [← hsplit]
            rw [sumLen_append]
            simp only [sumLen, List.map_cons, List.map_nil, List.sum_cons, List.sum_nil]
            omega
          · rw [if_neg h5] at h
            injection h with hbs
            refine Or.inr (Or.inl ⟨h2.1, h2.2.1, h2.2.2, ?_⟩)
            rw [← hbs]
            conv_rhs => rw [← hsplit]
            rw [sumLen_append, sumLen_append]
            simp only [sumLen, List.map_cons, List.map_nil, List.sum_cons, List.sum_nil]
            omega
    · rw [if_neg (by simpa using h2)] at h
      injection h with hbs
      exact Or.inr (Or.inr ⟨hbs.symm, Or.inr ⟨h1, h2⟩⟩)

/-- With `pad=True`, the pad/truncate stage never removes indices: every
index of the incoming batches is still present afterwards. -/
theorem padTruncate_mem_pad {st : BucketedState} {c0 : Nat} {batches bs : List (List Nat)}
    (hpad : st.pad = true) (h : st.padTruncate c0 batches = Except.ok bs) :
    ∀ x ∈ batches.flatten, x ∈ bs.flatten := by
  unfold BucketedState.padTruncate at h
  by_cases h1 : st.pad = true ∧ (st.length.length - c0) % st.num_replicas ≠ 0 ∧
      (st.length.length - c0) % st.num_replicas ≤ st.rank
  · rw [if_pos (by simpa using h1)] at h
    by_cases h2 : 0 < batches.length
    · rw [if_pos h2] at h
      have hbne : batches ≠ [] := List.ne_nil_of_length_pos h2
      have hsplit : batches.dropLast ++ [batches.getLastD []] = batches := by
        rw [List.getLastD_eq_getLast? , List.getLast?_eq_getLast batches hbne]
        exact List.dropLast_append_getLast hbne
      by_cases h3 : (batches.getLastD []).length = 0
      · rw [if_pos h3] at h
        exact absurd h (by simp)
      · rw [if_neg h3] at h
        by_cases h4 : (batches.getLastD []).length < st.batch_size
        · rw [if_pos h4] at h
          injection h with hbs
          intro y hy
          rw [← hbs]
          conv at hy => rw [← hsplit]
          simp only [List.flatten_append, List.mem_append, List.flatten_cons,
            List.flatten_nil, List.append_nil] at hy ⊢
          rcases hy with hy | hy
          · exact Or.inl hy
          · exact Or.inr (Or.inl hy)
        · rw [if_neg h4] at h
          injection h with hbs
          intro y hy
          rw [← hbs]
          simp only [List.flatten_append, List.mem_append]
          exact Or.inl hy
    · rw [if_neg h2] at h
      injection h with hbs
      rw [← hbs]
      exact fun x hx => hx
  · rw [if_neg (by simpa using h1)] at h
    rw [if_neg (by simp [hpad])] at h
    injection h with hbs
    rw [← hbs]
    exact fun x hx => hx

/-- The pad/truncate stage never invents indices beyond the duplicated one:
with `pad=False` every index of the result comes from the incoming
batches. -/
theorem padTruncate_mem_nopad {st : BucketedState} {c0 : Nat} {batches bs : List (List Nat)}
    (hpad : st.pad = false) (h : st.padTruncate c0 batches = Except.ok bs) :
    ∀ x ∈ bs.flatten, x ∈ batches.flatten := by
  unfold BucketedState.padTruncate at h
  rw [if_neg (by simp [hpad])] at h
  by_cases h2 : st.pad = false ∧ (st.length.length - c0) % st.num_replicas ≠ 0 ∧
      st.rank < (st.length.length - c0) % st.num_replicas
  · rw [if_pos (by simpa using h2)] at h
    by_cases h3 : batches.length = 0
    · rw [if_pos h3] at h
      exact absurd h (by simp)
    · rw [if_neg h3] at h
      have hbne : batches ≠ [] := by
        intro hnil
        rw [hnil] at h3
        simp at h3
      have hsplit : batches.dropLast ++ [batches.getLastD []] = batches := by
        rw [List.getLastD_eq_getLast? , List.getLast?_eq_getLast batches hbne]
        exact List.dropLast_append_getLast hbne
      by_cases h4 : (batches.getLastD []).length = 0
      · rw [if_pos h4] at h
        exact absurd h (by simp)
      · rw [if_neg h4] at h
        by_cases h5 : ((batches.getLastD []).dropLast).length = 0
        · rw [if_pos h5] at h
          injection h with hbs
          intro y hy
          rw [← hbs] at hy
          rw [show batches = batches.dropLast ++ [batches.getLastD []] from hsplit.symm]
          simp only [List.flatten_append, List.mem_append]
          exact Or.inl hy
        · rw [if_neg h5] at h
          injection h with hbs
          intro y hy
          rw [← hbs] at hy
          rw [show batches = batches.dropLast ++ [batches.getLastD []] from hsplit.symm]
          simp only [List.flatten_append, List.mem_append, List.flatten_cons,
            List.flatten_nil, List.append_nil] at hy ⊢
          rcases hy with hy | hy
          · exact Or.inl hy
          · exact Or.inr ((List.dropLast_sublist _).subset hy)
  · rw [if_neg (by simpa using h2)] at h
    injection h with hbs
    rw [← hbs]
    exact fun x hx => hx

theorem iterBatches_ok_parts {A : RngFamily} {st : BucketedState} {bs : List (List Nat)}
    (h : st.iterBatches A = Except.ok bs) :
    ∃ bs0, st.iterBatchesPre A = Except.ok bs0 ∧
      sumLen bs0 = st.numLeftFrom st.startConsumed ∧
      bs = dropIfShort st.drop_last st.batch_size bs0 := by
  simp only [BucketedState.iterBatches] at h
  obtain ⟨bs0, h1, h2⟩ := except_bind_ok h
  by_cases hq : sumLen bs0 ≠ st.numLeftFrom st.startConsumed
  · rw [if_pos hq] at h2
    exact absurd h2 (by simp)
  · rw [if_neg hq] at h2
    injection h2 with h3
    exact ⟨bs0, h1, by omega, h3.symm⟩

/-- Characterization of the pre-assert stage of a fresh pass
(`num_consumed_samples = 0` at iteration start): the batches passed to
pad/truncate form a permutation of this shard's stride slice of
`sorted_indices`, and they are non-empty. -/
theorem iterBatchesPre_parts {A : RngFamily} {st : BucketedState} {bs0 : List (List Nat)}
    (h : st.iterBatchesPre A = Except.ok bs0)
    (hc0 : st.startConsumed = 0) :
    ∃ batches0, batches0 ≠ [] ∧
      batches0.flatten.Perm (pySlice (sortedIndicesOf st.length) st.rank st.num_replicas) ∧
      st.padTruncate 0 batches0 = Except.ok bs0 := by
  simp only [BucketedState.iterBatchesPre] at h
  rw [hc0] at h
  cases hsh : st.shuffle with
  | false =>
    rw [hsh] at h
    simp only [Bool.false_eq_true, if_false, List.drop_zero, pure_bind] at h
    exact ⟨_, pyChunk_ne_nil _ _, by rw [pyChunk_flatten], h⟩
  | true =>
    rw [hsh] at h
    simp only [if_true, lt_self_iff_false, if_false, pure_bind] at h
    obtain ⟨batches0, hbuck, hpt⟩ := except_bind_ok h
    exact ⟨batches0, bucketerize_ne_nil hbuck, bucketerize_perm hbuck, hpt⟩

/-- With `shuffle=False` on a single shard, the pre-assert stage is just the
chunking of the remaining suffix of `sorted_indices`. -/
theorem iterBatchesPre_R1 (A : RngFamily) (st : BucketedState)
    (hsh : st.shuffle = false) (hR : st.num_replicas = 1) (hrk : st.rank = 0)
    (hdi : st.during_iter = false) :
    st.iterBatchesPre A = Except.ok
      (pyChunk ((sortedIndicesOf st.length).drop st.num_consumed_samples) st.batch_size) := by
  simp only [BucketedState.iterBatchesPre, BucketedState.startConsumed, hdi, hsh,
    Bool.false_eq_true, if_false, pure_bind]
  rw [hrk, hR, pySlice_one, List.drop_zero]
  unfold BucketedState.padTruncate
  rw [hR]
  simp [Nat.mod_one]

/-- All chunks of an exactly divisible list have full length `b`. -/
theorem chunksExact_length_mem (b : Nat) :
    ∀ (n : Nat) (l : List α), l.length = n * b → ∀ batch ∈ chunksExact b n l,
      batch.length = b
  | 0, l, _, batch, hmem => by simp [chunksExact] at hmem
  | n + 1, l, hlen, batch, hmem => by
    have hexp : (n + 1) * b = n * b + b := by ring
    rw [chunksExact] at hmem
    rcases List.mem_cons.mp hmem with h | h
    · rw [h, List.length_take, hlen]
      omega
    · refine chunksExact_length_mem b n (l.drop b) ?_ batch h
      rw [List.length_drop, hlen]
      omega

theorem mem_flatten_dropLast {bs : List (List Nat)} {x : Nat}
    (h : x ∈ (bs.dropLast).flatten) : x ∈ bs.flatten := by
  rcases eq_or_ne bs [] with rfl | hne
  · simpa using h
  · rw [show bs = bs.dropLast ++ [bs.getLast hne] from
      (List.dropLast_append_getLast hne).symm, List.flatten_append]
    exact List.mem_append_left _ h

theorem sumLen_dropLast_le (bs : List (List Nat)) : sumLen bs.dropLast ≤ sumLen bs := by
  rcases eq_or_ne bs [] with rfl | hne
  · simp
  · conv_rhs => rw [← List.dropLast_append_getLast hne]
    rw [sumLen_append]
    omega

theorem dropIfShort_subset (dl : Bool) (b : Nat) (bs : List (List Nat)) :
    ∀ x ∈ (dropIfShort dl b bs).flatten, x ∈ bs.flatten := by
  unfold dropIfShort
  split_ifs with h
  · exact fun x hx => mem_flatten_dropLast hx
  · exact fun x hx => hx

theorem dropIfShort_sumLen_le (dl : Bool) (b : Nat) (bs : List (List Nat)) :
    sumLen (dropIfShort dl b bs) ≤ sumLen bs := by
  unfold dropIfShort
  split_ifs with h
  · exact sumLen_dropLast_le bs
  · exact le_refl _

theorem dropIfShort_cons (dl : Bool) (b : Nat) (x : List Nat)
    {rest : List (List Nat)} (hne : rest ≠ []) :
    dropIfShort dl b (x :: rest) = x :: dropIfShort dl b rest := by
  obtain ⟨y, ys, rfl⟩ : ∃ y ys, rest = y :: ys := by
    cases rest with
    | nil => exact absurd rfl hne
    | cons y ys => exact ⟨y, ys, rfl⟩
  unfold dropIfShort
  have hlast : (x :: y :: ys).getLastD [] = (y :: ys).getLastD [] := by
    rw [List.getLastD_eq_getLast? , List.getLastD_eq_getLast? , List.getLast?_cons_cons]
  rw [hlast]
  by_cases h : dl = true ∧ 1 ≤ (y :: ys).length ∧ ((y :: ys).getLastD []).length < b
  · rw [if_pos h, if_pos ⟨h.1, by simp, h.2.2⟩]
    rfl
  · rw [if_neg h, if_neg ?_]
    intro hc
    exact h ⟨hc.1, by simp, hc.2.2⟩

/-- Resuming the `shuffle=False` single-shard chunking: dropping the
samples of the first `k` emitted batches and re-chunking reproduces
exactly the remaining batches, provided the checkpoint is strictly
mid-epoch. -/
theorem chunk_resume (dl : Bool) (b : Nat) (hb : 1 ≤ b) :
    ∀ (k : Nat) (l : List Nat),
      k ≤ (dropIfShort dl b (pyChunk l b)).length →
      sumLen ((dropIfShort dl b (pyChunk l b)).take k) < l.length →
      dropIfShort dl b (pyChunk (l.drop (sumLen ((dropIfShort dl b (pyChunk l b)).take k))) b)
        = (dropIfShort dl b (pyChunk l b)).drop k
  | 0, l, _, _ => by simp [sumLen]
  | k + 1, l, hk, hlt => by
    rcases le_or_lt l.length b with hle | hgt
    · rw [pyChunk_of_le hb hle] at hk hlt ⊢
      unfold dropIfShort at hk hlt ⊢
      by_cases hcond : dl = true ∧ 1 ≤ ([l] : List (List Nat)).length ∧
          (([l] : List (List Nat)).getLastD []).length < b
      · rw [if_pos hcond] at hk
        simp at hk
      · rw [if_neg hcond] at hk hlt
        have hk1 : k = 0 := by simpa using hk
        subst hk1
        simp [sumLen] at hlt
    · rw [pyChunk_of_lt hb hgt] at hk hlt ⊢
      have hne : pyChunk (l.drop b) b ≠ [] := pyChunk_ne_nil _ _
      rw [dropIfShort_cons dl b _ hne] at hk hlt ⊢
      have htb : (l.take b).length = b := by
        rw [List.length_take]
        omega
      have hsum : sumLen ((l.take b :: dropIfShort dl b (pyChunk (l.drop b) b)).take (k + 1))
          = b + sumLen ((dropIfShort dl b (pyChunk (l.drop b) b)).take k) := by
        rw [List.take_succ_cons]
        simp [sumLen, htb]
      rw [hsum] at hlt ⊢
      have hlt' : sumLen ((dropIfShort dl b (pyChunk (l.drop b) b)).take k) <
          (l.drop b).length := by
        rw [List.length_drop]
        omega
      have hk' : k ≤ (dropIfShort dl b (pyChunk (l.drop b) b)).length := by
        simpa using hk
      have hdd : l.drop (b + sumLen ((dropIfShort dl b (pyChunk (l.drop b) b)).take k))
          = (l.drop b).drop (sumLen ((dropIfShort dl b (pyChunk (l.drop b) b)).take k)) := by
        rw [List.drop_drop]
      rw [hdd, List.drop_succ_cons]
      exact chunk_resume dl b hb k (l.drop b) hk' hlt'

/-! ### Claim theorems -/

/-- C3 (counterexample): for lengths `[5,1,8,2,9,3,7,4,6,0]` the
length-descending order computed by the code is NOT the
`[4,2,6,0,8,7,5,3,9,1]` stated by the claim (that order is not even
non-increasing: index 0 has length 5 but index 8, placed after it, has
length 6), and the iteration does not yield the claimed batches. -/
theorem c3_counterexample :
    sortedIndicesOf [5, 1, 8, 2, 9, 3, 7, 4, 6, 0] ≠ [4, 2, 6, 0, 8, 7, 5, 3, 9, 1] ∧
    BucketedState.iterBatches idRng
        (BucketedState.construct [5, 1, 8, 2, 9, 3, 7, 4, 6, 0] 3 10 false false 0 0) ≠
      Except.ok [[4, 2, 6], [0, 8, 7], [5, 3, 9], [1]] := by
  constructor
  · decide
  · decide

/-- C3 (amended): for that dataset the sorted order is
`[4,2,6,8,0,7,5,3,1,9]` (descending lengths `9,8,7,6,5,4,3,2,1,0`), the
pass yields exactly `[4,2,6],[8,0,7],[5,3,1],[9]` regardless of the
generator family (`shuffle=False` never consults it), and `__len__()`
returns 4. -/
theorem c3_amended :
    sortedIndicesOf [5, 1, 8, 2, 9, 3, 7, 4, 6, 0] = [4, 2, 6, 8, 0, 7, 5, 3, 1, 9] ∧
    (∀ A : RngFamily, BucketedState.iterBatches A
        (BucketedState.construct [5, 1, 8, 2, 9, 3, 7, 4, 6, 0] 3 10 false false 0 0) =
      Except.ok [[4, 2, 6], [8, 0, 7], [5, 3, 1], [9]]) ∧
    (BucketedState.construct [5, 1, 8, 2, 9, 3, 7, 4, 6, 0] 3 10 false false 0 0).len = 4 := by
  refine ⟨by decide, fun A => ?_, by decide⟩
  rfl

/-- C4 (counterexample): with two equal lengths `[1,1]` the computed order
is `[1,0]` — equal-length entries appear in REVERSED original order, not
the original relative order claimed (`np.argsort` ascending is stable but
the subsequent `[::-1]` reverses ties as well). -/
theorem c4_counterexample :
    sortedIndicesOf [1, 1] = [1, 0] ∧
    ¬ (sortedIndicesOf [1, 1]).Pairwise
        (fun a b => [1, 1].getD a 0 = [1, 1].getD b 0 → a < b) := by
  constructor
  · decide
  · decide

/-- C4 (amended): `sorted_indices` is a permutation of `[0, N)`, the
lengths along it are non-increasing, and equal-length entries appear in
reversed original order. -/
theorem c4_amended (L : List Nat) :
    (sortedIndicesOf L).Perm (List.range L.length) ∧
    (sortedIndicesOf L).Pairwise
      (fun a b => L.getD b 0 ≤ L.getD a 0 ∧ (L.getD a 0 = L.getD b 0 → b < a)) := by
  refine ⟨sortedIndicesOf_perm L, ?_⟩
  refine (sortedIndicesOf_pairwise L).imp ?_
  intro a b h
  unfold keyLt at h
  exact ⟨by omega, by omega⟩

/-- C5: `num_left_samples` is the exact mathematical ceiling (when `pad`)
or floor (otherwise) of `(N - num_consumed_samples) / num_replicas`,
`total_size` is `num_consumed_samples + num_replicas * num_left_samples`,
and `__len__()` divides the per-shard total by `batch_size`, truncating
under `drop_last` and rounding up otherwise. -/
theorem c5_arithmetic (st : BucketedState)
    (hc : st.num_consumed_samples ≤ st.length.length)
    (hR : 1 ≤ st.num_replicas) (hb : 1 ≤ st.batch_size) :
    (st.pad = true → st.num_left_samples =
      ⌈((st.length.length - st.num_consumed_samples : ℕ) : ℚ) / (st.num_replicas : ℚ)⌉₊) ∧
    (st.pad = false → st.num_left_samples =
      ⌊((st.length.length - st.num_consumed_samples : ℕ) : ℚ) / (st.num_replicas : ℚ)⌋₊) ∧
    st.total_size = st.num_consumed_samples + st.num_replicas * st.num_left_samples ∧
    (st.drop_last = true → st.len = st.total_size / st.num_replicas / st.batch_size) ∧
    (st.drop_last = false → st.len =
      ⌈((st.total_size / st.num_replicas : ℕ) : ℚ) / (st.batch_size : ℚ)⌉₊) := by
  refine ⟨?_, ?_, rfl, ?_, ?_⟩
  · intro hpad
    rw [ceil_div_cast _ _ hR]
    simp [BucketedState.num_left_samples, BucketedState.numLeftFrom, hpad]
  · intro hpad
    rw [show ⌊((st.length.length - st.num_consumed_samples : ℕ) : ℚ) /
        (st.num_replicas : ℚ)⌋₊ = (st.length.length - st.num_consumed_samples) /
        st.num_replicas from Nat.floor_div_nat _ _]
    simp [BucketedState.num_left_samples, BucketedState.numLeftFrom, hpad]
  · intro hdl
    simp [BucketedState.len, hdl]
  · intro hdl
    rw [ceil_div_cast _ _ hb]
    simp [BucketedState.len, hdl]

/-- C5 witness. -/
theorem c5_arithmetic_witness :
    ((BucketedState.construct [3, 1, 2] 2 10 false false 0 0).pad = false →
      (BucketedState.construct [3, 1, 2] 2 10 false false 0 0).num_left_samples =
        ⌊(((BucketedState.construct [3, 1, 2] 2 10 false false 0 0).length.length -
            (BucketedState.construct [3, 1, 2] 2 10 false false 0 0).num_consumed_samples : ℕ) : ℚ) /
          ((BucketedState.construct [3, 1, 2] 2 10 false false 0 0).num_replicas : ℚ)⌋₊) ∧
    (BucketedState.construct [3, 1, 2] 2 10 false false 0 0).total_size =
      (BucketedState.construct [3, 1, 2] 2 10 false false 0 0).num_consumed_samples +
        (BucketedState.construct [3, 1, 2] 2 10 false false 0 0).num_replicas *
          (BucketedState.construct [3, 1, 2] 2 10 false false 0 0).num_left_samples :=
  ⟨(c5_arithmetic _ (by decide) (by decide) (by decide)).2.1,
   (c5_arithmetic _ (by decide) (by decide) (by decide)).2.2.1⟩

/-- C6: `state_dict` fails exactly when `batch_size` or
`num_batch_per_bucket` differ from their `old_*` snapshots; otherwise it
exports precisely the nine documented fields with the current values (the
function reads but never writes the sampler state). -/
theorem c6_state_dict (st : BucketedState) :
    ((st.batch_size ≠ st.old_batch_size ∨
        st.num_batch_per_bucket ≠ st.old_num_batch_per_bucket) →
      st.state_dict = Except.error "RuntimeError") ∧
    (st.batch_size = st.old_batch_size →
      st.num_batch_per_bucket = st.old_num_batch_per_bucket →
      st.state_dict = Except.ok
        { seed := st.seed, epoch := st.epoch
          num_consumed_samples := st.num_consumed_samples
          sampler_type := "BucketedBatchSampler", length := st.length.length
          shuffle := st.shuffle, batch_size := st.batch_size
          num_batch_per_bucket := st.num_batch_per_bucket
          num_replicas := st.num_replicas }) := by
  constructor
  · intro h
    have h' : st.old_batch_size ≠ st.batch_size ∨
        st.old_num_batch_per_bucket ≠ st.num_batch_per_bucket := by tauto
    unfold BucketedState.state_dict
    rw [if_pos h']
  · intro h1 h2
    have h' : ¬(st.old_batch_size ≠ st.batch_size ∨
        st.old_num_batch_per_bucket ≠ st.num_batch_per_bucket) := by tauto
    unfold BucketedState.state_dict
    rw [if_neg h']

/-- C6 witness. -/
theorem c6_state_dict_witness :
    c1Shard.state_dict = Except.ok
      { seed := 0, epoch := -1, num_consumed_samples := 0
        sampler_type := "BucketedBatchSampler", length := 5
        shuffle := false, batch_size := 2, num_batch_per_bucket := 10
        num_replicas := 2 } :=
  (c6_state_dict c1Shard).2 rfl rfl

/-- C7: `load_state_dict` fails exactly when called mid-iteration, on a
sampler-type mismatch, or on a dataset-length mismatch; on success it
installs the checkpoint's `seed`, `epoch`, `num_consumed_samples` (reset
to 0 when the stored value has reached the dataset length), overrides
`shuffle` with the checkpoint's flag, snapshots the checkpoint's
`batch_size`/`num_batch_per_bucket`/`num_replicas` into the `old_*`
fields, and changes nothing else. -/
theorem c7_load_state_dict (st : BucketedState) (sd : SamplerCkpt) :
    ((st.during_iter = true ∨ sd.sampler_type ≠ "BucketedBatchSampler" ∨
        sd.length ≠ st.length.length) →
      ∃ e, st.load_state_dict sd = Except.error e) ∧
    (st.during_iter = false → sd.sampler_type = "BucketedBatchSampler" →
      sd.length = st.length.length →
      st.load_state_dict sd = Except.ok
        { st with
          seed := sd.seed, epoch := sd.epoch
          num_consumed_samples :=
            if sd.length ≤ sd.num_consumed_samples then 0 else sd.num_consumed_samples
          shuffle := sd.shuffle
          old_batch_size := sd.batch_size
          old_num_batch_per_bucket := sd.num_batch_per_bucket
          old_num_replicas := some sd.num_replicas }) := by
  unfold BucketedState.load_state_dict
  constructor
  · rintro (h | h | h)
    · rw [if_pos (by simp [h])]
      exact ⟨_, rfl⟩
    · by_cases h1 : st.during_iter = true
      · rw [if_pos (by simp [h1])]
        exact ⟨_, rfl⟩
      · rw [if_neg (by simpa using h1), if_pos h]
        exact ⟨_, rfl⟩
    · by_cases h1 : st.during_iter = true
      · rw [if_pos (by simp [h1])]
        exact ⟨_, rfl⟩
      · rw [if_neg (by simpa using h1)]
        by_cases h2 : sd.sampler_type ≠ "BucketedBatchSampler"
        · rw [if_pos h2]
          exact ⟨_, rfl⟩
        · rw [if_neg h2, if_pos h]
          exact ⟨_, rfl⟩
  · intro h1 h2 h3
    rw [if_neg (by simp [h1]), if_neg (by simp [h2]), if_neg (by simp [h3])]

/-- C7 witness. -/
theorem c7_load_state_dict_witness :
    c1Shard.load_state_dict c1Ckpt = Except.ok
      { c1Shard with
        seed := 0, epoch := -1
        num_consumed_samples := if c1Ckpt.length ≤ c1Ckpt.num_consumed_samples then 0 else 4
        shuffle := false
        old_batch_size := 2, old_num_batch_per_bucket := 10
        old_num_replicas := some 2 } :=
  (c7_load_state_dict c1Shard c1Ckpt).2 rfl rfl rfl

/-- C10: the constructor never initialises `old_num_replicas` (modelled as
`none`); a sampler constructed with `shuffle=True` and a positive
`num_consumed_samples` kwarg therefore fails with `AttributeError` in the
mid-epoch resume branch of `__iter__` before yielding anything. -/
theorem c10_old_num_replicas (A : RngFamily) (lengths : List Nat) (b nb : Nat)
    (dl : Bool) (seed : Int) (c : Nat) (hc : 0 < c) :
    (BucketedState.construct lengths b nb true dl seed c).old_num_replicas = none ∧
    BucketedState.iterBatches A (BucketedState.construct lengths b nb true dl seed c) =
      Except.error "AttributeError" := by
  refine ⟨rfl, ?_⟩
  have hpre : (BucketedState.construct lengths b nb true dl seed c).iterBatchesPre A =
      Except.error "AttributeError" := by
    simp only [BucketedState.iterBatchesPre, BucketedState.startConsumed,
      BucketedState.construct, if_true, Bool.false_eq_true, if_false, if_pos hc]
    rfl
  simp only [BucketedState.iterBatches, hpre]
  rfl

/-- C10 witness. -/
theorem c10_old_num_replicas_witness :
    (BucketedState.construct [1, 0] 2 10 true false 0 1).old_num_replicas = none ∧
    BucketedState.iterBatches idRng (BucketedState.construct [1, 0] 2 10 true false 0 1) =
      Except.error "AttributeError" :=
  c10_old_num_replicas idRng [1, 0] 2 10 false 0 1 (by decide)

/-- C8 (counterexample): a `ReproducibleBatchSampler` reconstructed with
the resume kwarg `data_idx=2` does NOT re-derive `index_list` and reset
the cursor on its first `__iter__` call, contrary to the claim: it resumes
from the stored cursor and emits `[[2,3]]`, not the full pass. -/
theorem c8_counterexample :
    ReproState.need_reinitialize c8Resume = false ∧
    (c8Resume.runPass).1 = [[2, 3]] ∧
    (c8Resume.runPass).1 ≠
      ReproState.emitBatches (iterateSampler c8Resume.batch_sampler)
        c8Resume.batch_size c8Resume.drop_last := by
  refine ⟨rfl, rfl, ?_⟩
  decide

/-- C8 (amended): `index_list` is derived eagerly at construction (with
cursor 0 and `need_reinitialize=False`); `__iter__` re-derives it and
resets the cursor exactly when `need_reinitialize` is set (which happens
at the start of every pass, so from the second pass on), and otherwise
resumes from the stored `data_idx`.  Every pass emits consecutive
`batch_size`-slices of the remaining indices: with `drop_last=False` they
concatenate to exactly the remaining indices, with `drop_last=True` only
the full slices are emitted. -/
theorem c8_amended (st : ReproState) :
    (ReproState.need_reinitialize st = true →
      st.runPass = (ReproState.emitBatches (iterateSampler st.batch_sampler)
          st.batch_size st.drop_last,
        { st with index_list := iterateSampler st.batch_sampler
                  data_idx := (iterateSampler st.batch_sampler).length
                  need_reinitialize := true })) ∧
    (ReproState.need_reinitialize st = false →
      st.runPass = (ReproState.emitBatches (st.index_list.drop st.data_idx)
          st.batch_size st.drop_last,
        { st with data_idx := st.data_idx + (st.index_list.drop st.data_idx).length
                  need_reinitialize := true })) ∧
    (∀ (sampler : List (Nat ⊕ List Nat)) (b : Nat) (dl : Bool),
      ReproState.need_reinitialize (ReproState.construct sampler b dl) = false ∧
      (ReproState.construct sampler b dl).index_list = iterateSampler sampler ∧
      (ReproState.construct sampler b dl).data_idx = 0) ∧
    (∀ (l : List Nat) (b : Nat), 1 ≤ b →
      (ReproState.emitBatches l b false).flatten = l ∧
      (ReproState.emitBatches l b true).flatten = l.take (l.length / b * b) ∧
      (∀ batch ∈ ReproState.emitBatches l b true, batch.length = b)) := by
  refine ⟨?_, ?_, fun sampler b dl => ⟨rfl, rfl, rfl⟩, ?_⟩
  · intro h
    simp only [ReproState.runPass, h, if_true, List.drop_zero, Nat.zero_add]
  · intro h
    simp only [ReproState.runPass, h, Bool.false_eq_true, if_false]
  · intro l b hb
    have htake : (l.take (l.length / b * b)).length = l.length / b * b := by
      rw [List.length_take]
      have := Nat.div_mul_le_self l.length b
      omega
    refine ⟨?_, ?_, ?_⟩
    · simp only [ReproState.emitBatches]
      rw [List.flatten_append, chunksExact_flatten, List.take_take, Nat.min_self]
      rcases Nat.eq_zero_or_pos (l.length % b) with h0 | h0
      · have hdvd : b ∣ l.length := Nat.dvd_of_mod_eq_zero h0
        rw [if_neg (by simp [h0])]
        rw [Nat.div_mul_cancel hdvd]
        simp
      · rw [if_pos (And.intro (by omega) (by simp))]
        simp [List.take_append_drop]
    · simp only [ReproState.emitBatches]
      rw [if_neg (by simp), List.append_nil, chunksExact_flatten, List.take_take,
        Nat.min_self]
    · intro batch hmem
      simp only [ReproState.emitBatches] at hmem
      rw [if_neg (by simp), List.append_nil] at hmem
      exact chunksExact_length_mem b (l.length / b) (l.take (l.length / b * b)) htake
        batch hmem

/-- C1 (counterexample): a valid two-shard configuration (5 samples,
`batch_size=2`, `shuffle=False`, `pad=True`, rank 1) yields `[1,3]` then
`[1]`; checkpointing at the boundary after the first batch
(`num_consumed_samples=4`) and loading into an identically configured
fresh instance makes the resumed `__iter__` raise `IndexError` (its
remaining stride slice is empty while the pad branch indexes
`batches[-1][0]`), instead of yielding the remaining batch `[[1]]`. -/
theorem c1_counterexample :
    BucketedState.set_distributed c1Base 2 1 true = Except.ok c1Shard ∧
    (∀ A : RngFamily, BucketedState.iterBatches A c1Shard = Except.ok [[1, 3], [1]]) ∧
    BucketedState.state_dict (BucketedState.midState c1Shard [[1, 3], [1]] 1) =
      Except.ok c1Ckpt ∧
    BucketedState.load_state_dict c1Shard c1Ckpt = Except.ok c1Resumed ∧
    ([[1, 3], [1]] : List (List Nat)).drop 1 = [[1]] ∧
    (∀ A : RngFamily, BucketedState.iterBatches A c1Resumed = Except.error "IndexError") := by
  refine ⟨by decide, fun A => ?_, by decide, by decide, by decide, fun A => ?_⟩
  · rfl
  · rfl

/-- C2 (counterexample): with `pad=True` but `drop_last=True` (3 samples,
`batch_size=2`, single shard, a valid `set_distributed` configuration) the
pass emits only `[[0,1]]`: original index 2 never appears in any shard's
output, so the claimed pad-coverage fails as stated. -/
theorem c2_counterexample :
    BucketedState.set_distributed (BucketedState.construct [2, 1, 0] 2 10 false true 0 0)
      1 0 true = Except.ok c2Shard ∧
    (∀ A : RngFamily, BucketedState.iterBatches A c2Shard = Except.ok [[0, 1]]) ∧
    c2Shard.pad = true ∧ 2 < c2Shard.length.length ∧
    2 ∉ ([[0, 1]] : List (List Nat)).flatten := by
  refine ⟨by decide, fun A => ?_, rfl, by decide, by decide⟩
  rfl

/-- C9 (amended): for a fresh pass (`num_consumed_samples = 0`, not
mid-iteration) of any valid shard configuration, whenever the pad/truncate
stage completes without error the total index count equals
`num_left_samples` exactly: the internal assertion never fires on a fresh
pass.  (After a mid-epoch restore the assertion CAN fire — see the
counterexample.) -/
theorem c9_fresh_assert (A : RngFamily) (st : BucketedState)
    (hc : st.num_consumed_samples = 0) (hdi : st.during_iter = false)
    (hR : 1 ≤ st.num_replicas) (hr : st.rank < st.num_replicas)
    (bs0 : List (List Nat))
    (h : st.iterBatchesPre A = Except.ok bs0) :
    sumLen bs0 = st.num_left_samples := by
  have hc0 : st.startConsumed = 0 := by simp [BucketedState.startConsumed, hdi, hc]
  obtain ⟨batches0, hne, hperm, hpt⟩ := iterBatchesPre_parts h hc0
  have hN := sortedIndicesOf_length st.length
  have hsum0 : sumLen batches0 =
      (st.length.length - st.rank + st.num_replicas - 1) / st.num_replicas := by
    rw [sumLen_eq_flatten, hperm.length_eq, pySlice_length st.num_replicas hR, hN]
  have htarget : st.num_left_samples =
      if st.pad then (st.length.length + st.num_replicas - 1) / st.num_replicas
      else st.length.length / st.num_replicas := by
    simp [BucketedState.num_left_samples, BucketedState.numLeftFrom, hc]
  rcases padTruncate_sum hpt with
    ⟨hpad, hp1, hp2, -, hsum⟩ | ⟨hpad, hp1, hp2, hsum⟩ | ⟨hbs, hcase⟩
  · have hp1' : st.length.length % st.num_replicas ≠ 0 := by simpa using hp1
    have hp2' : st.length.length % st.num_replicas ≤ st.rank := by simpa using hp2
    have hcount := slice_pad_count st.length.length st.num_replicas st.rank hR hr
    rw [if_pos ⟨hp1', hp2'⟩] at hcount
    rw [hsum, hsum0, htarget, if_pos hpad]
    omega
  · have hp1' : st.length.length % st.num_replicas ≠ 0 := by simpa using hp1
    have hp2' : st.rank < st.length.length % st.num_replicas := by simpa using hp2
    have hcount := slice_nopad_count st.length.length st.num_replicas st.rank hR hr
    rw [if_pos ⟨hp1', hp2'⟩] at hcount
    have hge := hcount.2 ⟨hp1', hp2'⟩
    rw [htarget, if_neg (by simp [hpad])]
    omega
  · rcases hcase with ⟨hpadt, hempty⟩ | ⟨hnp, hnt⟩
    · exact absurd hempty hne
    · rw [hbs, hsum0, htarget]
      by_cases hpad : st.pad = true
      · rw [if_pos hpad]
        have hcond : ¬(st.length.length % st.num_replicas ≠ 0 ∧
            st.length.length % st.num_replicas ≤ st.rank) := by
          intro hcc
          exact hnp ⟨hpad, by simpa using hcc.1, by simpa using hcc.2⟩
        have hcount := slice_pad_count st.length.length st.num_replicas st.rank hR hr
        rw [if_neg hcond] at hcount
        omega
      · have hpadf : st.pad = false := by
          rcases Bool.eq_false_or_eq_true st.pad with hpb | hpb
          · exact absurd hpb hpad
          · exact hpb
        rw [if_neg (by simp [hpadf])]
        have hcond : ¬(st.length.length % st.num_replicas ≠ 0 ∧
            st.rank < st.length.length % st.num_replicas) := by
          intro hcc
          exact hnt ⟨hpadf, by simpa using hcc.1, by simpa using hcc.2⟩
        have hcount := slice_nopad_count st.length.length st.num_replicas st.rank hR hr
        rw [if_neg hcond] at hcount
        omega

/-- C9 witness for the amended statement. -/
theorem c9_fresh_assert_witness :
    sumLen [[0, 1]] = (BucketedState.construct [1, 0] 2 10 false false 0 0).num_left_samples :=
  c9_fresh_assert idRng (BucketedState.construct [1, 0] 2 10 false false 0 0)
    rfl rfl (by decide) (by decide) [[0, 1]] (by rfl)

/-- C2 (amended): for any valid shard family (`1 ≤ R`, `1 ≤ batch_size`)
over a fresh pass: with `pad=True` and `drop_last=False`, whenever every
shard's pass succeeds, every original dataset index appears in the union
of the shards' emitted batches; with `pad=False` every emitted index is an
original dataset index and no shard emits more than `ceil(N/R)` samples. -/
theorem c2_amended (A : RngFamily) (lengths : List Nat) (b nb R : Nat) (sh : Bool)
    (seed : Int) (hR : 1 ≤ R) (hb : 1 ≤ b) :
    (∀ bsf : Nat → List (List Nat),
      (∀ r, r < R → BucketedState.iterBatches A
          { BucketedState.construct lengths b nb sh false seed 0 with
            num_replicas := R, rank := r, pad := true } = Except.ok (bsf r)) →
      ∀ i, i < lengths.length → ∃ r, r < R ∧ i ∈ (bsf r).flatten) ∧
    (∀ (r : Nat) (dl : Bool) (bs : List (List Nat)), r < R →
      BucketedState.iterBatches A
          { BucketedState.construct lengths b nb sh dl seed 0 with
            num_replicas := R, rank := r, pad := false } = Except.ok bs →
      (∀ i ∈ bs.flatten, i < lengths.length) ∧
      sumLen bs ≤ (lengths.length + R - 1) / R) := by
  constructor
  · intro bsf hok i hi
    have hmem : i ∈ sortedIndicesOf lengths :=
      (sortedIndicesOf_perm lengths).mem_iff.mpr (List.mem_range.mpr hi)
    obtain ⟨r, hrR, hmemsl⟩ := pySlice_cover R hR (sortedIndicesOf lengths) hmem
    refine ⟨r, hrR, ?_⟩
    obtain ⟨bs0, hpre, hassert, hfinal⟩ := iterBatches_ok_parts (hok r hrR)
    obtain ⟨batches0, hne, hperm, hpt⟩ := iterBatchesPre_parts hpre rfl
    have hi0 : i ∈ batches0.flatten := hperm.mem_iff.mpr hmemsl
    have hi1 : i ∈ bs0.flatten := padTruncate_mem_pad rfl hpt i hi0
    have hfin : bsf r = bs0 := by
      rw [hfinal]
      unfold dropIfShort
      rw [if_neg (by simp [BucketedState.construct])]
    rw [hfin]
    exact hi1
  · intro r dl bs hrR h
    obtain ⟨bs0, hpre, hassert, hfinal⟩ := iterBatches_ok_parts h
    obtain ⟨batches0, hne, hperm, hpt⟩ := iterBatchesPre_parts hpre rfl
    constructor
    · intro i hi
      have hi0 : i ∈ bs0.flatten := by
        rw [hfinal] at hi
        exact dropIfShort_subset _ _ _ i hi
      have hi1 : i ∈ batches0.flatten := padTruncate_mem_nopad rfl hpt i hi0
      have hi2 : i ∈ pySlice (sortedIndicesOf lengths) r R := hperm.mem_iff.mp hi1
      have hi3 : i ∈ sortedIndicesOf lengths := pySlice_subset _ _ _ hi2
      have hi4 : i ∈ List.range lengths.length :=
        (sortedIndicesOf_perm lengths).mem_iff.mp hi3
      exact List.mem_range.mp hi4
    · have hassert' : sumLen bs0 = lengths.length / R := by
        rw [hassert]
        simp [BucketedState.numLeftFrom, BucketedState.startConsumed,
          BucketedState.construct]
      have hle : sumLen bs ≤ sumLen bs0 := by
        rw [hfinal]
        exact dropIfShort_sumLen_le _ _ _
      have hmono : lengths.length / R ≤ (lengths.length + R - 1) / R :=
        Nat.div_le_div_right (by omega)
      omega

/-- C2 witness for the amended statement. -/
theorem c2_amended_witness :
    (∀ bsf : Nat → List (List Nat),
      (∀ r, r < 1 → BucketedState.iterBatches idRng
          { BucketedState.construct [0] 1 10 false false 0 0 with
            num_replicas := 1, rank := r, pad := true } = Except.ok (bsf r)) →
      ∀ i, i < ([0] : List Nat).length → ∃ r, r < 1 ∧ i ∈ (bsf r).flatten) ∧
    (∀ (r : Nat) (dl : Bool) (bs : List (List Nat)), r < 1 →
      BucketedState.iterBatches idRng
          { BucketedState.construct [0] 1 10 false dl 0 0 with
            num_replicas := 1, rank := r, pad := false } = Except.ok bs →
      (∀ i ∈ bs.flatten, i < ([0] : List Nat).length) ∧
      sumLen bs ≤ (([0] : List Nat).length + 1 - 1) / 1) :=
  c2_amended idRng [0] 1 10 1 false 0 (by decide) (by decide)

/-- Bind on an `ok` value reduces to the continuation. -/
theorem ok_bind {ε α β : Type} (e : α) (f : α → Except ε β) :
    (Except.ok e >>= f) = f e := rfl

/-- C1 (amended): for single-shard (`num_replicas=1`) `shuffle=False`
configurations, checkpointing at any yielded-batch boundary strictly
inside the epoch (`num_consumed_samples < N`) and loading into a fresh
identically configured instance reproduces exactly the remaining batches
— independently of the generator family, which this path never consults.
(In multi-shard configurations the resumed pass can instead fail with
`IndexError` — see the counterexample.) -/
theorem c1_single_shard_resume (A : RngFamily) (lengths : List Nat) (b nb : Nat)
    (dl : Bool) (seed : Int) (hb : 1 ≤ b) (bs : List (List Nat)) (k : Nat)
    (h : BucketedState.iterBatches A (BucketedState.construct lengths b nb false dl seed 0)
      = Except.ok bs)
    (hk : k ≤ bs.length)
    (hlt : sumLen (bs.take k) < lengths.length) :
    ∃ ck st2,
      BucketedState.state_dict
        (BucketedState.midState (BucketedState.construct lengths b nb false dl seed 0) bs k)
        = Except.ok ck ∧
      BucketedState.load_state_dict (BucketedState.construct lengths b nb false dl seed 0) ck
        = Except.ok st2 ∧
      ∀ A2 : RngFamily, BucketedState.iterBatches A2 st2 = Except.ok (bs.drop k) := by
  set st0 := BucketedState.construct lengths b nb false dl seed 0 with hst0
  have hpre0 : st0.iterBatchesPre A =
      Except.ok (pyChunk ((sortedIndicesOf lengths).drop 0) b) :=
    iterBatchesPre_R1 A st0 rfl rfl rfl rfl
  rw [List.drop_zero] at hpre0
  obtain ⟨bs0, hpre, hassert, hfinal⟩ := iterBatches_ok_parts h
  have hbs0 : bs0 = pyChunk (sortedIndicesOf lengths) b := by
    have h2 := hpre0.symm.trans hpre
    injection h2 with h3
    exact h3.symm
  have hbs : bs = dropIfShort dl b (pyChunk (sortedIndicesOf lengths) b) := by
    rw [hfinal, hbs0]
    rfl
  set ckv := sumLen (bs.take k) with hckv
  clear_value ckv
  refine ⟨{ seed := seed, epoch := -1, num_consumed_samples := ckv,
            sampler_type := "BucketedBatchSampler", length := lengths.length,
            shuffle := false, batch_size := b, num_batch_per_bucket := nb,
            num_replicas := 1 },
          { st0 with num_consumed_samples := ckv, old_num_replicas := some 1 },
          ?_, ?_, ?_⟩
  · simp only [BucketedState.state_dict, BucketedState.midState]
    rw [if_neg (by simp [hst0, BucketedState.construct])]
    simp [hst0, BucketedState.construct, BucketedState.startConsumed, hckv]
  · simp only [BucketedState.load_state_dict]
    rw [if_neg (by simp [hst0, BucketedState.construct]), if_neg (by simp),
      if_neg (by simp [hst0, BucketedState.construct])]
    have hif : (if lengths.length ≤ ckv then (0 : Nat) else ckv) = ckv :=
      if_neg (by omega)
    simp [hst0, BucketedState.construct, hif]
  · intro A2
    have hpre2 : BucketedState.iterBatchesPre A2
        { st0 with num_consumed_samples := ckv, old_num_replicas := some 1 } =
        Except.ok (pyChunk ((sortedIndicesOf lengths).drop ckv) b) :=
      iterBatchesPre_R1 A2 _ rfl rfl rfl rfl
    have hN := sortedIndicesOf_length lengths
    have hsum2 : sumLen (pyChunk ((sortedIndicesOf lengths).drop ckv) b) =
        lengths.length - ckv := by
      rw [sumLen_eq_flatten, pyChunk_flatten, List.length_drop, hN]
    simp only [BucketedState.iterBatches, hpre2]
    rw [ok_bind]
    have hnl : BucketedState.numLeftFrom
        { st0 with num_consumed_samples := ckv, old_num_replicas := some 1 }
        (BucketedState.startConsumed
          { st0 with num_consumed_samples := ckv, old_num_replicas := some 1 }) =
        lengths.length - ckv := by
      simp [BucketedState.numLeftFrom, BucketedState.startConsumed, hst0,
        BucketedState.construct]
    rw [if_neg (by rw [hsum2, hnl]; exact fun hcon => hcon rfl)]
    have hk' : k ≤ (dropIfShort dl b (pyChunk (sortedIndicesOf lengths) b)).length := by
      rw [← hbs]; exact hk
    have hlt' : sumLen ((dropIfShort dl b (pyChunk (sortedIndicesOf lengths) b)).take k) <
        (sortedIndicesOf lengths).length := by
      rw [hN, ← hbs, ← hckv]; exact hlt
    have hres := chunk_resume dl b hb k (sortedIndicesOf lengths) hk' hlt'
    have hckv2 : ckv = sumLen ((dropIfShort dl b
        (pyChunk (sortedIndicesOf lengths) b)).take k) := by
      rw [hckv, hbs]
    have hgoal : dropIfShort dl b (pyChunk ((sortedIndicesOf lengths).drop ckv) b) =
        (dropIfShort dl b (pyChunk (sortedIndicesOf lengths) b)).drop k := by
      rw [hckv2]; exact hres
    rw [hbs]
    exact congrArg Except.ok hgoal

/-- Witness for C1 (amended): a concrete single-shard run on lengths
`[1, 0]` with `batch_size=1` yields `[[0], [1]]`; checkpointing after the
first batch and reloading reproduces `[[1]]`. -/
theorem c1_single_shard_resume_witness :
    ∃ ck st2,
      BucketedState.state_dict (BucketedState.midState
        (BucketedState.construct [1, 0] 1 10 false false 0 0) [[0], [1]] 1)
        = Except.ok ck ∧
      BucketedState.load_state_dict (BucketedState.construct [1, 0] 1 10 false false 0 0) ck
        = Except.ok st2 ∧
      ∀ A2 : RngFamily, BucketedState.iterBatches A2 st2 = Except.ok ([[0], [1]].drop 1) :=
  c1_single_shard_resume idRng [1, 0] 1 10 false 0 (by decide) [[0], [1]] 1
    (by decide) (by decide) (by decide)

/-- Witness for C8 (amended): the concrete resumed state with
`data_idx = 2` over the flattened sampler `[0, 1, 2, 3]` emits exactly the
remaining indices `[[2, 3]]`. -/
theorem c8_amended_witness :
    c8Resume.runPass = (ReproState.emitBatches (c8Resume.index_list.drop c8Resume.data_idx)
        c8Resume.batch_size c8Resume.drop_last,
      { c8Resume with
          data_idx := c8Resume.data_idx + (c8Resume.index_list.drop c8Resume.data_idx).length,
          need_reinitialize := true }) :=
  (c8_amended c8Resume).2.1 rfl
/-- `bucketerize` on a four-element input with `batch_size=2`,
`num_batch_per_bucket=1`: two buckets, each shuffled in place, no batch-order
change (only one non-last batch index). -/
theorem bucketerize_1357 (A : RngFamily) (s : Int) :
    ∃ p q, bucketerize A [1, 3, 5, 7] 2 1 s = Except.ok [p, q] ∧
      p.Perm [1, 3] ∧ q.Perm [5, 7] := by
  have hmin : ¬ min ([1, 3, 5, 7] : List Nat).length (2 * 1) = 0 := by decide
  simp only [bucketerize, if_neg hmin]
  rw [foldl_shuffleChunk, List.nil_append]
  rw [show chunksExact (min ([1, 3, 5, 7] : List Nat).length (2 * 1))
      ((([1, 3, 5, 7] : List Nat).length + min ([1, 3, 5, 7] : List Nat).length (2 * 1) - 1) /
        min ([1, 3, 5, 7] : List Nat).length (2 * 1)) [1, 3, 5, 7]
      = [[1, 3], [5, 7]] from rfl]
  set s0 := A.fresh s.natAbs with hs0
  rw [shuffleChunkAll, shuffleChunkAll, shuffleChunkAll]
  have h1 : ((A.shuf s0 [1, 3]).1).Perm [1, 3] := A.shuf_perm s0 [1, 3]
  have h2 : ((A.shuf (A.shuf s0 [1, 3]).2 [5, 7]).1).Perm [5, 7] :=
    A.shuf_perm (A.shuf s0 [1, 3]).2 [5, 7]
  set x := (A.shuf s0 [1, 3]).1 with hx
  set y := (A.shuf (A.shuf s0 [1, 3]).2 [5, 7]).1 with hy
  rw [pyChunk_of_le (by decide) (show x.length ≤ 2 from le_of_eq h1.length_eq),
    pyChunk_of_le (by decide) (show y.length ≤ 2 from le_of_eq h2.length_eq)]
  have happ : ([x] ++ ([y] ++ []) : List (List Nat)) = [x, y] := rfl
  rw [happ]
  have hr : (List.range ([x, y] : List (List Nat)).length).dropLast = [0] := rfl
  rw [hr]
  have h0 : (A.shuf s0 [0]).1 = [0] := perm_singleton (A.shuf_perm s0 [0])
  rw [h0]
  exact ⟨x, y, rfl, h1, h2⟩

/-- `bucketerize` on a five-element input with `batch_size=2`,
`num_batch_per_bucket=1`: three batches of sizes `2, 2, 1`; the final short
batch `[8]` stays last, the two full batches may swap. -/
theorem bucketerize_02468 (A : RngFamily) (s : Int) :
    ∃ u v, bucketerize A [0, 2, 4, 6, 8] 2 1 s = Except.ok [u, v, [8]] ∧
      u.length = 2 ∧ v.length = 2 := by
  have hmin : ¬ min ([0, 2, 4, 6, 8] : List Nat).length (2 * 1) = 0 := by decide
  simp only [bucketerize, if_neg hmin]
  rw [foldl_shuffleChunk, List.nil_append]
  rw [show chunksExact (min ([0, 2, 4, 6, 8] : List Nat).length (2 * 1))
      ((([0, 2, 4, 6, 8] : List Nat).length +
          min ([0, 2, 4, 6, 8] : List Nat).length (2 * 1) - 1) /
        min ([0, 2, 4, 6, 8] : List Nat).length (2 * 1)) [0, 2, 4, 6, 8]
      = [[0, 2], [4, 6], [8]] from rfl]
  set s0 := A.fresh s.natAbs with hs0
  rw [shuffleChunkAll, shuffleChunkAll, shuffleChunkAll, shuffleChunkAll]
  have h1 : ((A.shuf s0 [0, 2]).1).Perm [0, 2] := A.shuf_perm s0 [0, 2]
  have h2 : ((A.shuf (A.shuf s0 [0, 2]).2 [4, 6]).1).Perm [4, 6] :=
    A.shuf_perm (A.shuf s0 [0, 2]).2 [4, 6]
  have h3 : (A.shuf (A.shuf (A.shuf s0 [0, 2]).2 [4, 6]).2 [8]).1 = [8] :=
    perm_singleton (A.shuf_perm (A.shuf (A.shuf s0 [0, 2]).2 [4, 6]).2 [8])
  set x := (A.shuf s0 [0, 2]).1 with hx
  set y := (A.shuf (A.shuf s0 [0, 2]).2 [4, 6]).1 with hy
  rw [pyChunk_of_le (by decide) (show x.length ≤ 2 from le_of_eq h1.length_eq),
    pyChunk_of_le (by decide) (show y.length ≤ 2 from le_of_eq h2.length_eq), h3]
  rw [show pyChunk ([8] : List Nat) 2 = [[8]] from rfl]
  have happ : ([x] ++ ([y] ++ ([[8]] ++ [])) : List (List Nat)) = [x, y, [8]] := rfl
  rw [happ]
  have hr : (List.range ([x, y, [8]] : List (List Nat)).length).dropLast = [0, 1] := rfl
  rw [hr]
  rcases perm_pair (A.shuf_perm s0 [0, 1]) with h01 | h01 <;> rw [h01]
  · exact ⟨x, y, rfl, h1.length_eq, h2.length_eq⟩
  · exact ⟨y, x, rfl, h2.length_eq, h1.length_eq⟩

/-- `bucketerize` on any two-element input with `batch_size=2`,
`num_batch_per_bucket=1` returns a single batch permuting the input. -/
theorem bucketerize_len2 (A : RngFamily) (s : Int) (l : List Nat) (h2 : l.length = 2) :
    ∃ r, bucketerize A l 2 1 s = Except.ok [r] ∧ r.Perm l := by
  have hmin : ¬ min l.length (2 * 1) = 0 := by rw [h2]; decide
  simp only [bucketerize, if_neg hmin]
  rw [foldl_shuffleChunk, List.nil_append]
  have hch : chunksExact (min l.length (2 * 1))
      ((l.length + min l.length (2 * 1) - 1) / min l.length (2 * 1)) l = [l] := by
    rw [h2]
    norm_num
    rw [chunksExact, chunksExact, List.take_of_length_le (by omega)]
  rw [hch]
  set s0 := A.fresh s.natAbs with hs0
  rw [shuffleChunkAll, shuffleChunkAll]
  have h1 : ((A.shuf s0 l).1).Perm l := A.shuf_perm s0 l
  set r := (A.shuf s0 l).1 with hrr
  rw [pyChunk_of_le (by decide)
      (show r.length ≤ 2 from le_of_eq (h1.length_eq.trans h2))]
  have happ : ([r] ++ [] : List (List Nat)) = [r] := rfl
  rw [happ]
  have hrange : (List.range ([r] : List (List Nat)).length).dropLast = [] := rfl
  rw [hrange]
  have hnil : (A.shuf s0 []).1 = [] := (A.shuf_perm s0 []).eq_nil
  rw [hnil]
  exact ⟨r, rfl, h1⟩

/-- One pass of the C9 saving shard (`rank=1`, `pad=True`) yields three
batches of sizes `2, 2, 1` under every generator family. -/
theorem c9Saving_pass (A : RngFamily) :
    ∃ p q h, BucketedState.iterBatches A c9Saving = Except.ok [p, q, [h]] ∧
      p.length = 2 ∧ q.length = 2 := by
  have hstep : BucketedState.iterBatchesPre A c9Saving =
      (bucketerize A [1, 3, 5, 7] 2 1 (-1)) >>= fun batches =>
        BucketedState.padTruncate c9Saving 0 batches := rfl
  obtain ⟨p, q, hbk, hp, hq⟩ := bucketerize_1357 A (-1)
  have hp2 : p.length = 2 := hp.length_eq
  have hq2 : q.length = 2 := hq.length_eq
  have hpre : BucketedState.iterBatchesPre A c9Saving =
      Except.ok [p, q, [q.headD 0]] := by
    rw [hstep, hbk, ok_bind]
    simp only [BucketedState.padTruncate]
    have hlast : ([p, q] : List (List Nat)).getLastD [] = q := rfl
    rw [if_pos (by decide), if_pos (by simp), hlast,
      if_neg (by omega), if_neg (by rw [show c9Saving.batch_size = 2 from rfl]; omega)]
    rfl
  simp only [BucketedState.iterBatches]
  rw [hpre, ok_bind]
  have hsum : sumLen [p, q, [q.headD 0]] = 5 := by simp [sumLen, hp2, hq2]
  have hnl : c9Saving.numLeftFrom c9Saving.startConsumed = 5 := rfl
  rw [if_neg (by rw [hsum, hnl]; exact fun hc => hc rfl)]
  have hd : dropIfShort c9Saving.drop_last c9Saving.batch_size [p, q, [q.headD 0]]
      = [p, q, [q.headD 0]] := by
    rw [show c9Saving.drop_last = false from rfl]
    simp [dropIfShort]
  rw [hd]
  exact ⟨p, q, q.headD 0, rfl, hp2, hq2⟩

set_option maxHeartbeats 1000000 in
/-- The resumed pass of `c9Resumed` always trips the internal assertion:
the mid-epoch reconstruction yields this shard 2 samples while
`num_left_samples` expects 3. -/
theorem c9Resumed_fails (A : RngFamily) :
    BucketedState.iterBatches A c9Resumed = Except.error "AssertionError" := by
  have hstep : BucketedState.iterBatchesPre A c9Resumed = (do
      let b0 ← bucketerize A [0, 2, 4, 6, 8] 2 1 (-1)
      let b1 ← bucketerize A [1, 3, 5, 7] 2 1 (-1)
      let flat := ((transposeMin [b0, b1]).flatten).flatten
      let rem := flat.drop 4
      let sub := rem.map (List.getD [8, 7, 6, 5, 4, 3, 2, 1, 0] · 0)
      let si := (sortedIndicesOf sub).map (rem.getD · 0)
      let batches ← bucketerize A (pySlice si 0 2) 2 1 (-1)
      BucketedState.padTruncate c9Resumed 4 batches) := rfl
  obtain ⟨u, v, hbk0, hu2, hv2⟩ := bucketerize_02468 A (-1)
  obtain ⟨p, q, hbk1, hp, hq⟩ := bucketerize_1357 A (-1)
  have hp2 : p.length = 2 := hp.length_eq
  have hq2 : q.length = 2 := hq.length_eq
  simp only [BucketedState.iterBatches]
  rw [hstep, hbk0, ok_bind, hbk1, ok_bind]
  simp only []
  have hfl : ((transposeMin [[u, v, [8]], [p, q]] : List (List (List Nat))).flatten).flatten
      = u ++ (p ++ (v ++ (q ++ []))) := rfl
  have hassoc : u ++ (p ++ (v ++ (q ++ []))) = (u ++ p) ++ (v ++ (q ++ [])) :=
    (List.append_assoc u p (v ++ (q ++ []))).symm
  have hdrop : (u ++ (p ++ (v ++ (q ++ [])))).drop 4 = v ++ (q ++ []) := by
    rw [hassoc]
    exact List.drop_left' (by rw [List.length_append, hu2, hp2])
  rw [hfl, hdrop]
  have hlen4 : (v ++ (q ++ []) : List Nat).length = 4 := by simp [hv2, hq2]
  have hsl2 : (pySlice (List.map (fun x => (v ++ (q ++ [])).getD x 0)
      (sortedIndicesOf (List.map (fun x => ([8, 7, 6, 5, 4, 3, 2, 1, 0] : List Nat).getD x 0)
        (v ++ (q ++ []))))) 0 2).length = 2 := by
    rw [pySlice_length 2 (by norm_num), List.length_map, sortedIndicesOf_length,
      List.length_map, hlen4]
  obtain ⟨r, hbr, hrp⟩ := bucketerize_len2 A (-1) _ hsl2
  rw [hbr, ok_bind]
  have hpt : c9Resumed.padTruncate 4 [r] = Except.ok [r] := by
    simp only [BucketedState.padTruncate]
    rw [if_neg (by decide), if_neg (by decide)]
  rw [hpt, ok_bind]
  have hr2 : r.length = 2 := hrp.length_eq.trans hsl2
  have hs2 : sumLen [r] = 2 := by simp [sumLen, hr2]
  have hnl : c9Resumed.numLeftFrom c9Resumed.startConsumed = 3 := rfl
  rw [if_pos (by rw [hs2, hnl]; decide)]

/-- C9: counterexample.  The consistency assertion of `__iter__` is NOT
valid for every publicly reachable state: reach `c9Saving` and `c9Fresh` by
`set_distributed` on a 9-sample shuffled sampler, checkpoint the saving
shard after its first batch (4 of 9 samples consumed globally), load into
the fresh shard; then, for EVERY generator family, iterating the loaded
state raises the fatal `AssertionError` (the reconstruction-based resume
path under-delivers samples when the dataset size is odd). -/
theorem c9_counterexample :
    BucketedState.set_distributed c9Base 2 1 true = Except.ok c9Saving ∧
    BucketedState.set_distributed c9Base 2 0 true = Except.ok c9Fresh ∧
    (∀ A : RngFamily, ∃ bs, BucketedState.iterBatches A c9Saving = Except.ok bs ∧
      BucketedState.state_dict (BucketedState.midState c9Saving bs 1) = Except.ok c9Ckpt) ∧
    BucketedState.load_state_dict c9Fresh c9Ckpt = Except.ok c9Resumed ∧
    (∀ A : RngFamily, BucketedState.iterBatches A c9Resumed = Except.error "AssertionError") := by
  refine ⟨rfl, rfl, fun A => ?_, rfl, fun A => c9Resumed_fails A⟩
  obtain ⟨p, q, h, hiter, hp2, hq2⟩ := c9Saving_pass A
  refine ⟨[p, q, [h]], hiter, ?_⟩
  simp only [BucketedState.state_dict, BucketedState.midState]
  rw [if_neg (by decide)]
  have hncs : c9Saving.startConsumed +
      c9Saving.num_replicas * sumLen (([p, q, [h]] : List (List Nat)).take 1) = 4 := by
    rw [show c9Saving.startConsumed = 0 from rfl, show c9Saving.num_replicas = 2 from rfl]
    simp [sumLen, hp2]
  rw [hncs]
  rfl
